import Mathlib

/-!
# Verification of the X comment-monitor scraping core

Shallow embedding of the scraping core of the x-comment-monitor repository:
the progress channel (`scrapeProgress.ts`), the credential rotator and the
reply enumerator (`twitterScraper.ts`, Puppeteer version), the raw-comment
persistence layer (`db.ts`, in-memory development branch), and the
Apify-fallback orchestration (`routers.ts`).

Conventions used throughout:
* JavaScript strings are Lean `String`s; `null`/`undefined` become `Option`.
* `Date` instants are modelled as integers (milliseconds); the current
  instant (`Date.now()` / `new Date()`) is passed explicitly as a parameter.
* JavaScript numbers that can carry fractions are modelled as `ℚ`; `NaN` is
  modelled by `none` in an `Option ℚ` where it can arise.
* DOM reads (element queries, bounding boxes, extracted status ids) are
  modelled by scripted data: an `Article` carries the values the extractor
  functions would read off one post card, a `Round` carries the articles and
  recommendation cutoff one scroll round observes.
-/

namespace XCM

/-! ## Progress channel (`scrapeProgress.ts` and `ScrapeProgress` of `twitterScraper.ts`) -/

/-- The `stage` union of `ScrapeProgress`. -/
inductive Stage where
  | init
  | loading
  | fetching_tweets
  | fetching_replies
  | complete
  | error
deriving DecidableEq, Repr

/-- `ScrapeProgress` record (`twitterScraper.ts`). All counter fields are
declared `number` in the source; they are modelled as `Nat` since the code
only ever stores counts in them. -/
structure ScrapeProgress where
  stage : Stage
  message : String
  tweetsFound : Nat
  repliesFound : Nat
  currentTweet : Nat
  totalTweets : Nat
  currentAccount : Nat
  totalAccounts : Nat
deriving DecidableEq, Repr

/-- `StoredProgress` of `scrapeProgress.ts`. -/
structure StoredProgress where
  progress : ScrapeProgress
  updatedAt : Int
deriving DecidableEq, Repr

/-- The in-memory progress map, keyed by harvest target. -/
def ProgressStore := String → Option StoredProgress

/-- `setScrapeProgress` of `scrapeProgress.ts`.  The source guards the merge
with `typeof prev.repliesFound === 'number'` checks; both fields are declared
`number` in `ScrapeProgress`, so those guards are always true and are not
reproduced here.  `Date.now()` is the explicit `now` parameter. -/
def setScrapeProgress (username : String) (progress : ScrapeProgress) (now : Int)
    (store : ProgressStore) : ProgressStore :=
  let prev := (store username).map (·.progress)
  let merged : ScrapeProgress :=
    match prev with
    | some p =>
        if progress.repliesFound < p.repliesFound then
          { progress with repliesFound := p.repliesFound }
        else progress
    | none => progress
  fun k => if k = username then some { progress := merged, updatedAt := now } else store k

/-- `getScrapeProgress` of `scrapeProgress.ts`. -/
def getScrapeProgress (username : String) (store : ProgressStore) : Option ScrapeProgress :=
  (store username).map (·.progress)

/-- `clearScrapeProgress` of `scrapeProgress.ts`. -/
def clearScrapeProgress (username : String) (store : ProgressStore) : ProgressStore :=
  fun k => if k = username then none else store k

/-! ## Credential rotator (`twitterScraper.ts`, module-level state) -/

/-- The module-level rotator state: `accountCookies` and
`currentAccountIndex`. -/
structure RotatorState where
  accountCookies : List String
  currentAccountIndex : Nat
deriving DecidableEq, Repr

/-- `getNextAccountCookie` of `twitterScraper.ts`: empty ring yields
`undefined`; otherwise return the element at the cursor and advance the
cursor modulo the ring size.  The array access `accountCookies[i]` is
modelled with `getElem?` (JS yields `undefined` out of bounds). -/
def getNextAccountCookie (s : RotatorState) : Option String × RotatorState :=
  if s.accountCookies.length = 0 then (none, s)
  else
    (s.accountCookies[s.currentAccountIndex]?,
     { s with currentAccountIndex := (s.currentAccountIndex + 1) % s.accountCookies.length })

/-- `getCurrentAccountIndex` of `twitterScraper.ts`. -/
def getCurrentAccountIndex (s : RotatorState) : Nat := s.currentAccountIndex

/-- `removeAccountCookie` of `twitterScraper.ts`: splice out index `i` when in
range; reset the cursor to 0 when it would overflow the shrunk ring. -/
def removeAccountCookie (i : Nat) (s : RotatorState) : RotatorState :=
  if i < s.accountCookies.length then
    let cookies := s.accountCookies.take i ++ s.accountCookies.drop (i + 1)
    { accountCookies := cookies
      currentAccountIndex :=
        if cookies.length ≤ s.currentAccountIndex then 0 else s.currentAccountIndex }
  else s

/-- `n` consecutive `getNextAccountCookie` calls, collecting the handed-out
credentials in call order. -/
def nextCalls : Nat → RotatorState → List (Option String) × RotatorState
  | 0, s => ([], s)
  | n + 1, s =>
      let (c, s1) := getNextAccountCookie s
      let (cs, s2) := nextCalls n s1
      (c :: cs, s2)

/-- The credential/index snapshot taken at the start of `scrapeUserComments`
(`twitterScraper.ts`):
`useCookies = cookies || getNextAccountCookie(); accountIndex = cookies ? 0 :
getCurrentAccountIndex()`.  JS truthiness: an explicitly passed empty string
behaves like an absent credential. -/
def scrapeUserCommentsSnapshot (cookies : Option String) (s : RotatorState) :
    Option String × Nat × RotatorState :=
  if cookies.getD "" = "" then
    let (useCookies, s1) := getNextAccountCookie s
    (useCookies, getCurrentAccountIndex s1, s1)
  else
    (cookies, 0, s)

/-! ## Engagement-count parser (`parseCount` of `twitterScraper.ts`) -/

/-- Decimal digits of a string prefix. -/
def leadingDigits : List Char → List Char
  | [] => []
  | c :: cs => if c.isDigit then c :: leadingDigits cs else []

/-- Numeric value of a digit list. -/
def digitsVal (ds : List Char) : Nat :=
  ds.foldl (fun acc c => acc * 10 + (c.toNat - '0'.toNat)) 0

/-- The fragment of JavaScript `parseInt` exercised by the engagement-count
strings: parse the longest leading run of decimal digits; no digits parse to
`NaN` (`none`). -/
def parseIntJS (s : String) : Option Int :=
  match leadingDigits s.data with
  | [] => none
  | ds => some (digitsVal ds)

/-- The fragment of JavaScript `parseFloat` exercised by the engagement-count
strings: a leading run of digits, an optional `.` followed by more digits;
anything else is `NaN` (`none`). -/
def parseFloatJS (s : String) : Option ℚ :=
  let intPart := leadingDigits s.data
  let rest := s.data.drop intPart.length
  match rest with
  | '.' :: rest2 =>
      let fracPart := leadingDigits rest2
      if intPart = [] ∧ fracPart = [] then none
      else some ((digitsVal (intPart ++ fracPart) : ℚ) / ((10 : ℚ) ^ fracPart.length))
  | _ => if intPart = [] then none else some (digitsVal intPart)

/-- `text.replace(/[,K]/g, '')`: drop every comma and `K`. -/
def stripCommaK (s : String) : String :=
  String.mk (s.data.filter (fun c => ¬(c = ',' ∨ c = 'K')))

/-- `parseCount` of `twitterScraper.ts` (the identical local closures at the
tweet-collection, account-reply and single-post sites):
```
if (!text) return 0;
const num = text.replace(/[,K]/g, '');
if (text.includes('K')) return parseFloat(num) * 1000;
return parseInt(num) || 0;
```
The result is a JS number; `none` stands for `NaN` (reachable only through
the `parseFloat` branch, since `parseInt(num) || 0` coerces `NaN` to `0`). -/
def parseCount (t : Option String) : Option ℚ :=
  match t with
  | none => some 0
  | some s =>
      if s = "" then some 0
      else
        let num := stripCommaK s
        if s.data.contains 'K' then (parseFloatJS num).map (· * 1000)
        else some (((parseIntJS num).getD 0 : ℚ))

/-! ## Browser-launch-failure predicate and Apify fallback orchestration (`routers.ts`) -/

/-- Contiguous-substring test on character lists. -/
def containsSub (hay pat : List Char) : Bool :=
  match hay with
  | [] => pat.isEmpty
  | _ :: rest => pat.isPrefixOf hay || containsSub rest pat

/-- Case-insensitive substring test, the effect of `RegExp.test` with the `i`
flag on a regex that is an alternation of string literals. -/
def containsCI (hay pat : String) : Bool :=
  containsSub (hay.data.map Char.toLower) (pat.data.map Char.toLower)

/-- The four alternatives of the error-shape regex in
`isBrowserLaunchFailure` (`routers.ts`). -/
def browserLaunchFailurePatterns : List String :=
  ["Browser launch failed", "Failed to launch the browser process", "libnss3.so",
   "Browser initialization timed out"]

/-- `isBrowserLaunchFailure` of `routers.ts`: the normalised error message
matches `/Browser launch failed|Failed to launch the browser process|libnss3\.so|Browser initialization timed out/i`. -/
def isBrowserLaunchFailure (message : String) : Bool :=
  browserLaunchFailurePatterns.any (fun pat => containsCI message pat)

/-- Outcome of the browser-side harvest attempt inside `scrapeByTweetId`:
either the `Promise.race` resolves to a result object (`ok`/`failed` by its
`success` flag) or it rejects (`thrown`), e.g. on browser-launch failure or
the 10-minute hard timeout. -/
inductive BrowserOutcome where
  | ok (repliesCount : Nat)
  | failed (err : String)
  | thrown (err : String)
deriving DecidableEq, Repr

/-- The result object of `scrapeTweetRepliesViaApify` as seen by the
orchestrator (`success`, optional `error`, `commentsCount`). -/
structure ApifyOutcome where
  success : Bool
  error : Option String
  commentsCount : Nat
deriving DecidableEq, Repr

/-- The value `scrapeByTweetId` returns to the caller. -/
structure RouteResult where
  success : Bool
  method : Option String
  error : Option String
  commentsCount : Nat
deriving DecidableEq, Repr

/-- The shared fallback tail of `scrapeByTweetId` (`routers.ts`): return the
Apify result when it succeeded, otherwise a combined
`method: 'apify'` failure quoting both errors. -/
def apifyFallbackResult (apifyRun : ApifyOutcome) (browserErr : String) : RouteResult :=
  if apifyRun.success then
    { success := true, method := some "apify", error := none,
      commentsCount := apifyRun.commentsCount }
  else
    { success := false, method := some "apify",
      error := some ((apifyRun.error.getD "Apify scrape failed") ++
        " (Puppeteer error: " ++ browserErr ++ ")"),
      commentsCount := 0 }

/-- The decision structure of `scrapeByTweetId` (`routers.ts`) after the
browser attempt finished, parametrised by the configured `APIFY_API_TOKEN`
and by what the Apify run would return if started.  The side effects
(progress writes, persistence) are not part of this value. -/
def scrapeByTweetIdDispatch (apifyToken : Option String) (outcome : BrowserOutcome)
    (apifyRun : ApifyOutcome) : RouteResult :=
  match outcome with
  | .ok n => { success := true, method := none, error := none, commentsCount := n }
  | .failed err =>
      match apifyToken with
      | some _ => apifyFallbackResult apifyRun err
      | none => { success := false, method := some "puppeteer", error := some err,
                  commentsCount := 0 }
  | .thrown err =>
      match apifyToken with
      | some _ =>
          if isBrowserLaunchFailure err then apifyFallbackResult apifyRun err
          else { success := false, method := none, error := some err, commentsCount := 0 }
      | none => { success := false, method := none, error := some err, commentsCount := 0 }

/-! ## Raw-comment persistence (`db.ts`, in-memory development branch) -/

/-- Left-to-right replace-all of a nonempty pattern over a character list,
with an explicit character-count fuel (each step consumes at least one
character, so `hay.length` fuel is enough). -/
def replaceChars : Nat → List Char → List Char → List Char → List Char
  | 0, _, _, hay => hay
  | _ + 1, _, _, [] => []
  | fuel + 1, pat, repl, c :: rest =>
      if pat.isPrefixOf (c :: rest) then
        repl ++ replaceChars fuel pat repl ((c :: rest).drop pat.length)
      else c :: replaceChars fuel pat repl rest

/-- `String.prototype.replace` with a global literal pattern: replace every
(left-most, non-overlapping) occurrence of `pat` by `repl`. -/
def replaceAll (s pat repl : String) : String :=
  if pat = "" then s
  else String.mk (replaceChars s.data.length pat.data repl.data s.data)

/-- `normalizeCorruptedMediaTags` of `db.ts`: rewrite the three known
mis-encoded placeholder byte sequences to the canonical Chinese tags.
(`if (!text) return text` is the `""` case; each `.replace(/…/g, …)` is a
global literal replacement.) -/
def normalizeCorruptedMediaTags (text : String) : String :=
  if text = "" then text
  else replaceAll (replaceAll (replaceAll text "[鍥剧墖]" "[图片]") "[瑙嗛]" "[视频]")
    "[閾炬帴]" "[链接]"

/-- `InsertRawComment` (`drizzle/schema.ts` insert shape): `likeCount` and
`replyTo` are optional, `createdAt` is a `Date` (milliseconds). -/
structure InsertRawComment where
  replyId : String
  tweetId : String
  authorId : String
  authorName : String
  authorHandle : String
  text : String
  createdAt : Int
  likeCount : Option Int
  replyTo : Option String
deriving DecidableEq, Repr

/-- `DevRawCommentRow` of `db.ts` (the in-memory development store rows). -/
structure DevRawCommentRow where
  id : Nat
  replyId : String
  tweetId : String
  authorId : String
  authorName : String
  authorHandle : String
  text : String
  createdAt : Int
  likeCount : Int
  replyTo : Option String
  fetchedAt : Int
deriving DecidableEq, Repr

/-- `devRawCommentStore` plus `devRawCommentSeq`. -/
structure DevStore where
  rows : List DevRawCommentRow
  seq : Nat
deriving DecidableEq, Repr

/-- The in-place update `insertRawComment` performs on the row found by
`devRawCommentStore.find(c => c.replyId === …)`: overwrite `text`, take the
new `likeCount` when present, refresh `fetchedAt`. -/
def updateExistingRow (nc : InsertRawComment) (now : Int) :
    List DevRawCommentRow → List DevRawCommentRow
  | [] => []
  | r :: rs =>
      if r.replyId = nc.replyId then
        { r with
          text := nc.text
          likeCount := nc.likeCount.getD r.likeCount
          fetchedAt := now } :: rs
      else r :: updateExistingRow nc now rs

/-- `insertRawComment` of `db.ts`, development branch (no database handle):
normalise the text, then either update the existing row with the same
`replyId` in place or push a fresh row.  `new Date()` is the explicit `now`
parameter.  (The MySQL branch runs the same upsert through
`onDuplicateKeyUpdate { text, likeCount, fetchedAt }` on the unique
`replyId` key.) -/
def insertRawComment (c : InsertRawComment) (now : Int) (s : DevStore) : DevStore :=
  let nc : InsertRawComment := { c with text := normalizeCorruptedMediaTags c.text }
  if s.rows.any (fun r => r.replyId = nc.replyId) then
    { s with rows := updateExistingRow nc now s.rows }
  else
    { rows := s.rows ++ [{
        id := s.seq
        replyId := nc.replyId
        tweetId := nc.tweetId
        authorId := nc.authorId
        authorName := nc.authorName
        authorHandle := nc.authorHandle
        text := nc.text
        createdAt := nc.createdAt
        likeCount := nc.likeCount.getD 0
        replyTo := nc.replyTo
        fetchedAt := now }]
      seq := s.seq + 1 }

/-- `[图片]`, `[视频]`, `[链接]` as substring predicate on a stored text. -/
def textHasTag (text tag : String) : Bool :=
  containsSub text.data tag.data

/-! ## Apify dataset processing (`scrapeTweetRepliesViaApify` of `routers.ts`) -/

/-- One item of the fetched Apify dataset, restricted to the fields the loop
reads.  Each field models the result of the source's `??`-coalescing chain
over the camelCase/snake_case variants (e.g. `conversationId` stands for
`item?.conversationId ?? item?.conversation_id`); `none` is an absent
(`null`/`undefined`) value.  Non-string id values are modelled post
`String(...)` coercion, as `toStringSafe` produces. -/
structure ApifyItem where
  id : Option String
  conversationId : Option String
  inReplyToStatusId : Option String
  text : Option String
  authorName : Option String
  authorHandle : Option String
  authorId : Option String
  likeCount : Option ℚ
  createdAt : Option String
deriving DecidableEq, Repr

/-- `toStringSafe` of `routers.ts` on an already-string-or-absent value. -/
def toStringSafe (value : Option String) (fallback : String := "") : String :=
  value.getD fallback

/-- JS `String.prototype.trim`: strip leading and trailing whitespace. -/
def jsTrim (s : String) : String :=
  String.mk (((s.data.dropWhile Char.isWhitespace).reverse.dropWhile
    Char.isWhitespace).reverse)

/-- What `saveRootTweet`/`saveReply` hand to `insertRawComment`
(`routers.ts`): the persisted record shape, with `createdAt` kept as the ISO
string computed by the loop. -/
structure ApifySaved where
  replyId : String
  tweetId : String
  authorId : String
  authorName : String
  authorHandle : String
  text : String
  createdAt : String
  likeCount : ℚ
  replyTo : Option String
deriving DecidableEq, Repr

/-- The per-item keep test of the dataset loop: `conversationId == tweetId ||
inReplyToStatusId == tweetId || itemId === tweetId` over the coalesced string
values. -/
def sameConversation (tweetId : String) (item : ApifyItem) (itemId : String) : Bool :=
  toStringSafe item.conversationId = tweetId ∨
  toStringSafe item.inReplyToStatusId = tweetId ∨ itemId = tweetId

/-- The record `saveRootTweet` persists for a root observation. -/
def mkApifyRoot (id text authorName authorHandle createdAt : String) (likeCount : ℚ) :
    ApifySaved :=
  { replyId := id, tweetId := id, authorId := "unknown", authorName := authorName,
    authorHandle := authorHandle, text := text, createdAt := createdAt,
    likeCount := likeCount, replyTo := none }

/-- Processing of one kept dataset item (`routers.ts`): compute the coalesced
fields with their fallbacks and persist either the root record (when the item
is the root tweet) or a reply whose `replyTo` is `inReplyTo || tweetId`.
`nowISO` stands for `new Date().toISOString()`, used when `createdAt` is
absent or unparsable. -/
def processApifyItem (tweetId nowISO : String) (item : ApifyItem) (itemId : String) :
    ApifySaved :=
  let text := toStringSafe item.text
  let authorName := toStringSafe item.authorName "Unknown"
  let authorHandle := toStringSafe item.authorHandle "unknown"
  let authorId := toStringSafe item.authorId "unknown"
  let likeCount := (item.likeCount.getD 0)
  let createdAtISO := item.createdAt.getD nowISO
  if itemId = tweetId then
    mkApifyRoot itemId text authorName authorHandle createdAtISO likeCount
  else
    let inReplyTo := toStringSafe item.inReplyToStatusId
    { replyId := itemId, tweetId := (if inReplyTo = "" then tweetId else inReplyTo),
      authorId := authorId, authorName := authorName, authorHandle := authorHandle,
      text := text, createdAt := createdAtISO, likeCount := likeCount,
      replyTo := some (if inReplyTo = "" then tweetId else inReplyTo) }

/-- The dataset loop of `scrapeTweetRepliesViaApify`: skip items whose
trimmed id is empty, skip items failing the conversation filter, persist the
rest in order; track whether the root item appeared. -/
def processApifyItems (tweetId nowISO : String) :
    List ApifyItem → List ApifySaved × Bool
  | [] => ([], false)
  | item :: rest =>
      let itemId := jsTrim (toStringSafe item.id)
      let prev := processApifyItems tweetId nowISO rest
      if itemId = "" then prev
      else if sameConversation tweetId item itemId then
        (processApifyItem tweetId nowISO item itemId :: prev.1,
         decide (itemId = tweetId) || prev.2)
      else prev

/-- The full persistence effect of the dataset phase (`routers.ts`): process
every item, then synthesise an empty root record when no item with the root
id appeared. -/
def apifyDatasetEffect (tweetId nowISO : String) (items : List ApifyItem) :
    List ApifySaved :=
  let res := processApifyItems tweetId nowISO items
  if res.2 then res.1
  else res.1 ++ [mkApifyRoot tweetId "" "Unknown" "unknown" nowISO 0]

/-- The ids the claim's filter keeps, in dataset order: items with
`conversationId == R ∨ inReplyToStatusId == R ∨ id == R` (trimmed, nonempty
id). -/
def keptItemIds (tweetId : String) (items : List ApifyItem) : List String :=
  items.filterMap (fun item =>
    let itemId := jsTrim (toStringSafe item.id)
    if itemId ≠ "" ∧ sameConversation tweetId item itemId then some itemId else none)

/-! ## Harvesters and reply enumerator (`twitterScraper.ts`, Puppeteer version)

The DOM is modelled by scripted data: an `Article` carries the values the
per-card extraction reads off one `article[data-testid="tweet"]` element, a
`Round` is what one scroll round observes (`page.$$` result plus the
`getCutoffY` value and how many fold-expansion buttons a click pass hits). -/

/-- `Tweet` of `twitterScraper.ts`.  Engagement counts are `parseCount`
results (JS numbers; `none` models `NaN`). -/
structure Tweet where
  id : String
  text : String
  authorName : String
  authorHandle : String
  createdAt : String
  likeCount : Option ℚ
  replyCount : Option ℚ
  retweetCount : Option ℚ
deriving DecidableEq, Repr

/-- `Reply` of `twitterScraper.ts`. -/
structure Reply where
  id : String
  text : String
  authorId : String
  authorName : String
  authorHandle : String
  createdAt : String
  likeCount : Option ℚ
  replyTo : String
deriving DecidableEq, Repr

/-- What the extraction reads off one post-card element:
`extractStatusIdFromArticle` (a `\d+` capture, hence never empty; `none` is
`null`), the bounding-box `y` (`none` when `boundingBox()` is `null`), the
computed body text (including card-title fallback and media placeholders),
the `/(.+?)@(\w+)/` author match groups, the `<time datetime>` value (with
its now-ISO fallback), and the engagement-count span texts. -/
structure Article where
  extractedId : Option String
  boxY : Option ℚ
  text : String
  authorMatch : Option (String × String)
  datetime : String
  likeText : Option String
  replyText : Option String
  retweetText : Option String
deriving DecidableEq, Repr

/-- One scroll round of a scripted page: the articles `page.$$` returns, the
`getCutoffY` value (`none` is `Infinity`), and how many expansion buttons a
`clickByText` pass finds this round. -/
structure Round where
  articles : List Article
  cutoffY : Option ℚ
  expandClicks : Nat
deriving DecidableEq, Repr

/-- JS `||` on an optional string: `null`/`undefined` and `""` both fall
through to the fallback. -/
def jsOrStr (o : Option String) (fallback : String) : String :=
  match o with
  | some s => if s = "" then fallback else s
  | none => fallback

/-- `box && Number.isFinite(cutoffY) && box.y > cutoffY`: the card lies below
the recommendation cutoff. -/
def breakAtCutoff (boxY cutoffY : Option ℚ) : Bool :=
  match boxY, cutoffY with
  | some y, some c => c < y
  | _, _ => false

/-- The `Reply` record both reply loops build from a card
(`twitterScraper.ts`, identical at the account and single-post sites):
author fields fall back to `'Unknown'`/`'unknown'`, `likeCount` runs through
`parseCount`, `replyTo` is the root tweet id. -/
def mkReply (rootId : String) (rid : String) (a : Article) : Reply :=
  { id := rid
    text := a.text
    authorId := jsOrStr (a.authorMatch.map (·.2)) "unknown"
    authorName := jsOrStr (a.authorMatch.map (fun m => jsTrim m.1)) "Unknown"
    authorHandle := jsOrStr (a.authorMatch.map (·.2)) "unknown"
    createdAt := a.datetime
    likeCount := parseCount a.likeText
    replyTo := rootId }

/-- The root `Tweet` record the profile collection loop builds from a card;
author fields fall back to the profile handle. -/
def mkCollectedTweet (username : String) (tid : String) (a : Article) : Tweet :=
  { id := tid
    text := a.text
    authorName := jsOrStr (a.authorMatch.map (fun m => jsTrim m.1)) username
    authorHandle := jsOrStr (a.authorMatch.map (·.2)) username
    createdAt := a.datetime
    likeCount := parseCount a.likeText
    replyCount := parseCount a.replyText
    retweetCount := parseCount a.retweetText }

/-- `processArticleList` of `scrapeRepliesByTweetId`: walk the current
article list; stop at the first card below the cutoff; skip cards without an
id and cards whose id is already in `seenReplyIds` (which starts as
`{rootTweet.id}`); otherwise mark the id seen, build the `Reply` and append
it (the per-reply callback fires on append, so the accumulator order is the
emission order). -/
def processArticleList (rootId : String) (cutoffY : Option ℚ) :
    List Article → List String → List Reply → List String × List Reply
  | [], seen, acc => (seen, acc)
  | a :: rest, seen, acc =>
      if breakAtCutoff a.boxY cutoffY then (seen, acc)
      else
        match a.extractedId with
        | none => processArticleList rootId cutoffY rest seen acc
        | some rid =>
            if seen.contains rid then processArticleList rootId cutoffY rest seen acc
            else processArticleList rootId cutoffY rest (rid :: seen)
              (acc ++ [mkReply rootId rid a])

/-- Phase-A loop of `scrapeRepliesByTweetId`: one iteration per script round
while the no-new-replies streak stays below the limit and scroll budget
remains; each successful fold-expansion click (at most 8 per round, only
with `expandFoldedReplies`) grants 20 extra budget and resets the streak. -/
def phaseALoop (rootId : String) (expand : Bool) (maxNoNew : Nat) :
    List Round → Nat → Nat → List String → List Reply → List String × List Reply
  | _, 0, _, seen, acc => (seen, acc)
  | [], _, _, seen, acc => (seen, acc)
  | rd :: rest, b + 1, noNew, seen, acc =>
      if maxNoNew ≤ noNew then (seen, acc)
      else
        let res := processArticleList rootId rd.cutoffY rd.articles seen acc
        let noNew1 := if res.2.length = acc.length then noNew + 1 else 0
        let clicks := if expand then min rd.expandClicks 8 else 0
        let b1 := b + 20 * clicks
        let noNew2 := if 0 < clicks then 0 else noNew1
        phaseALoop rootId expand maxNoNew rest b1 noNew2 res.1 res.2

/-- Phase-B (bottom-sweep) loop of `scrapeRepliesByTweetId`: scroll to the
bottom and re-enumerate, up to `maxBottomRounds` rounds, until the no-new
streak reaches `maxBottomNoNew`. -/
def phaseBLoop (rootId : String) (maxNoNew : Nat) :
    List Round → Nat → Nat → List String → List Reply → List String × List Reply
  | [], _, _, seen, acc => (seen, acc)
  | _, 0, _, seen, acc => (seen, acc)
  | rd :: rest, b + 1, noNew, seen, acc =>
      if maxNoNew ≤ noNew then (seen, acc)
      else
        let res := processArticleList rootId rd.cutoffY rd.articles seen acc
        let noNew1 := if res.2.length = acc.length then noNew + 1 else 0
        phaseBLoop rootId maxNoNew rest b noNew1 res.1 res.2

/-- The enumerator budgets of `scrapeRepliesByTweetId` (dev/production
defaults, env-overridable). -/
structure EnumParams where
  expandFoldedReplies : Bool
  maxScrollsWithNoNewLimit : Nat
  initialScrollBudget : Nat
  maxBottomNoNew : Nat
  maxBottomRounds : Nat
deriving DecidableEq, Repr

/-- The replies a finished `scrapeRepliesByTweetId` run emits, in emission
order: phase A over `scriptA`, then phase B over `scriptB`, with
`seenReplyIds` seeded with the root id. -/
def scrapeRepliesRun (rootTweet : Tweet) (p : EnumParams)
    (scriptA scriptB : List Round) : List Reply :=
  let resA := phaseALoop rootTweet.id p.expandFoldedReplies p.maxScrollsWithNoNewLimit
    scriptA p.initialScrollBudget 0 [rootTweet.id] []
  (phaseBLoop rootTweet.id p.maxBottomNoNew scriptB p.maxBottomRounds 0 resA.1 resA.2).2

/-- A callback invocation: `onTweet` (root emission) or `onReply`. -/
inductive Event where
  | root (t : Tweet)
  | reply (r : Reply)
deriving DecidableEq, Repr

/-- The callback trace of `scrapeRepliesByTweetId`: `onTweet(rootTweet)`
fires before the reply loops start, then one `onReply` per emitted reply. -/
def scrapeRepliesTrace (rootTweet : Tweet) (p : EnumParams)
    (scriptA scriptB : List Round) : List Event :=
  Event.root rootTweet :: (scrapeRepliesRun rootTweet p scriptA scriptB).map Event.reply

/-- The per-round article walk of the account harvester's reply loop
(`scrapeUserComments`): like `processArticleList` but deduplicating against
the global `allReplies` accumulator, skipping only the current root id, and
reporting whether the recommendation cutoff was crossed (`reachedEnd`, which
there also ends the per-tweet while loop). -/
def accountProcessArticles (t : Tweet) (cutoffY : Option ℚ) :
    List Article → List Reply → List Reply × Bool
  | [], acc => (acc, false)
  | a :: rest, acc =>
      if breakAtCutoff a.boxY cutoffY then (acc, true)
      else
        match a.extractedId with
        | none => accountProcessArticles t cutoffY rest acc
        | some rid =>
            if rid = t.id ∨ acc.any (fun r => r.id = rid) then
              accountProcessArticles t cutoffY rest acc
            else accountProcessArticles t cutoffY rest (acc ++ [mkReply t.id rid a])

/-- The per-tweet reply while-loop of `scrapeUserComments`: budget 500,
streak limit 8, optional per-round expansion click granting 20 extra budget;
stops on cutoff (`reachedEnd`) or when `maxRepliesPerTweet` (0 = unlimited)
is reached for this tweet (`base` is the accumulator size when the tweet's
loop started). -/
def accountTweetLoop (t : Tweet) (expand : Bool) (maxPer : Nat) (base : Nat) :
    List Round → Nat → Nat → List Reply → List Reply
  | _, 0, _, acc => acc
  | [], _, _, acc => acc
  | rd :: rest, b + 1, noNew, acc =>
      if 8 ≤ noNew then acc
      else
        let res := accountProcessArticles t rd.cutoffY rd.articles acc
        if res.2 then res.1
        else if 0 < maxPer ∧ maxPer ≤ res.1.length - base then res.1
        else
          let noNew1 := if res.1.length = acc.length then noNew + 1 else 0
          let b1 := if expand ∧ rd.expandClicks ≠ 0 then b + 20 else b
          accountTweetLoop t expand maxPer base rest b1 noNew1 res.1

/-- The callback trace of the per-tweet phase of `scrapeUserComments`: for
each collected root tweet, `onTweet(tweet)` fires first, then one `onReply`
per reply its loop appends to the (global) accumulator. -/
def accountHarvestTrace (expand : Bool) (maxPer : Nat) :
    List (Tweet × List Round) → List Reply → List Event
  | [], _ => []
  | (t, sc) :: rest, acc =>
      let acc1 := accountTweetLoop t expand maxPer acc.length sc 500 0 acc
      Event.root t :: ((acc1.drop acc.length).map Event.reply)
        ++ accountHarvestTrace expand maxPer rest acc1

/-- The per-round article walk of the profile tweet-collection loop of
`scrapeUserComments`: stop at `maxTweets`, stop for good below the cutoff,
skip missing and duplicate ids. -/
def collectRound (username : String) (maxTweets : Nat) (cutoffY : Option ℚ) :
    List Article → List Tweet → List Tweet × Bool
  | [], tweets => (tweets, false)
  | a :: rest, tweets =>
      if maxTweets ≤ tweets.length then (tweets, false)
      else if breakAtCutoff a.boxY cutoffY then (tweets, true)
      else
        match a.extractedId with
        | none => collectRound username maxTweets cutoffY rest tweets
        | some tid =>
            if tweets.any (fun t => t.id = tid) then
              collectRound username maxTweets cutoffY rest tweets
            else collectRound username maxTweets cutoffY rest
              (tweets ++ [mkCollectedTweet username tid a])

/-- `Math.ceil(maxTweets / 3) + 5`, the profile scroll budget. -/
def maxProfileScrolls (maxTweets : Nat) : Nat := (maxTweets + 2) / 3 + 5

/-- The profile tweet-collection while-loop of `scrapeUserComments`. -/
def collectTweets (username : String) (maxTweets : Nat) :
    List Round → Nat → List Tweet → List Tweet
  | [], _, tweets => tweets
  | _, 0, tweets => tweets
  | rd :: rest, b + 1, tweets =>
      if maxTweets ≤ tweets.length then tweets
      else
        let res := collectRound username maxTweets rd.cutoffY rd.articles tweets
        if res.2 then res.1
        else collectTweets username maxTweets rest b res.1

/-- The callback trace of a whole `scrapeUserComments` run: collect the root
tweets from the profile page script, then harvest each root's replies,
pairing the i-th collected tweet with the i-th reply-page script. -/
def scrapeUserCommentsTrace (username : String) (maxTweets : Nat) (expand : Bool)
    (maxPer : Nat) (collectScript : List Round) (replyScripts : List (List Round)) :
    List Event :=
  let tweets := collectTweets username maxTweets collectScript
    (maxProfileScrolls maxTweets) []
  accountHarvestTrace expand maxPer (tweets.zip replyScripts) []

/-! ## Reply queries (`getCommentsWithAnalysis` of `db.ts`, development branch)

The MySQL branch pushes `sql`rawComments.replyId <> rawComments.tweetId``
as its first condition; the development branch below realises the same query
over the in-memory store and is modelled in full. -/

/-- The `sentiment` enum of `analyzed_comments`. -/
inductive Sentiment where
  | positive
  | neutral
  | negative
  | anger
  | sarcasm
deriving DecidableEq, Repr

/-- `DevAnalyzedRow` of `db.ts`.  `valueScore` is stored as a decimal string
(`decimal(3,2)`); it is modelled by its numeric value, which is what
`Number(...)` recovers wherever the row is read. -/
structure DevAnalyzedRow where
  id : Nat
  replyId : String
  sentiment : Sentiment
  valueScore : ℚ
  valueType : List String
  summary : String
  analyzedAt : Int
deriving DecidableEq, Repr

/-- The joined row shape the development branch of
`getCommentsWithAnalysis` returns. -/
structure CommentRow where
  id : Nat
  replyId : String
  tweetId : String
  authorId : String
  authorName : String
  authorHandle : String
  text : String
  createdAt : Int
  likeCount : Int
  replyTo : Option String
  replyToText : Option String
  sentiment : Option Sentiment
  valueScore : Option ℚ
  valueType : Option (List String)
  summary : Option String
  analyzedAt : Option Int
deriving DecidableEq, Repr

/-- The sort keys of `CommentFilter.sortBy`. -/
inductive SortBy where
  | time_desc
  | time_asc
  | value_desc
  | likes_desc
deriving DecidableEq, Repr

/-- `CommentFilter` of `db.ts`. -/
structure CommentFilter where
  tweetId : Option String := none
  authorHandles : Option (List String) := none
  rootTweetAuthor : Option String := none
  startTime : Option Int := none
  endTime : Option Int := none
  sentiments : Option (List Sentiment) := none
  minValueScore : Option ℚ := none
  maxValueScore : Option ℚ := none
  sortBy : Option SortBy := none
  limit : Option Nat := none
  offset : Option Nat := none
  analyzed : Option Bool := none
deriving DecidableEq, Repr

/-- JS truthiness of an optional string (absent and `""` are falsy). -/
def jsTruthyOptStr (o : Option String) : Bool := ¬(o.getD "" = "")

/-- `hasCustomValueScoreRange` of `db.ts`. -/
def hasCustomValueScoreRange (minV maxV : Option ℚ) : Bool :=
  if minV = none ∧ maxV = none then false
  else 0 < minV.getD 0 ∨ maxV.getD 1 < 1

/-- The `rootAuthorByTweetId` map of the development branch: last root row
(`replyId === tweetId`) per tweet id wins, as with `Map.set`. -/
def rootAuthorByTweetId (store : List DevRawCommentRow) (t : String) : Option String :=
  store.foldl
    (fun acc c => if c.replyId = c.tweetId ∧ c.tweetId = t then some c.authorHandle else acc)
    none

/-- The row projection of the development branch: join the analysis row by
`replyId`, resolve the parent text through `replyTo`, normalise media tags
on the way out. -/
def projectCommentRow (store : List DevRawCommentRow)
    (analyzed : String → Option DevAnalyzedRow) (raw : DevRawCommentRow) : CommentRow :=
  let analysis := analyzed raw.replyId
  let parent :=
    if jsTruthyOptStr raw.replyTo then
      store.find? (fun p => some p.replyId = raw.replyTo)
    else none
  { id := raw.id
    replyId := raw.replyId
    tweetId := raw.tweetId
    authorId := raw.authorId
    authorName := raw.authorName
    authorHandle := raw.authorHandle
    text := normalizeCorruptedMediaTags raw.text
    createdAt := raw.createdAt
    likeCount := raw.likeCount
    replyTo := raw.replyTo
    replyToText :=
      match parent with
      | some p => if p.text = "" then none else some (normalizeCorruptedMediaTags p.text)
      | none => none
    sentiment := analysis.map (·.sentiment)
    valueScore := analysis.map (·.valueScore)
    valueType := analysis.map (·.valueType)
    summary := analysis.map (·.summary)
    analyzedAt := analysis.map (·.analyzedAt) }

/-- Insertion into a list sorted by the boolean comparator `le`. -/
def insertLe (le : CommentRow → CommentRow → Bool) (a : CommentRow) :
    List CommentRow → List CommentRow
  | [] => [a]
  | b :: t => if le a b then a :: b :: t else b :: insertLe le a t

/-- Comparison sort by the boolean comparator `le`; models
`Array.prototype.sort` with the numeric comparators of `db.ts`. -/
def sortLe (le : CommentRow → CommentRow → Bool) : List CommentRow → List CommentRow
  | [] => []
  | a :: t => insertLe le a (sortLe le t)

/-- The comparator selected by `filter.sortBy || "time_desc"`. -/
def commentLe (sortBy : SortBy) (a b : CommentRow) : Bool :=
  match sortBy with
  | .time_asc => a.createdAt ≤ b.createdAt
  | .value_desc => b.valueScore.getD (-1) ≤ a.valueScore.getD (-1)
  | .likes_desc => b.likeCount ≤ a.likeCount
  | .time_desc => b.createdAt ≤ a.createdAt

/-- `if (filter.tweetId) rows = rows.filter(r => r.tweetId === filter.tweetId)`. -/
def stageTweetId (filter : CommentFilter) (l : List CommentRow) : List CommentRow :=
  if jsTruthyOptStr filter.tweetId then
    l.filter (fun r => some r.tweetId = filter.tweetId)
  else l

/-- `if (filter.authorHandles && filter.authorHandles.length > 0)` keep rows
whose author handle is in the set. -/
def stageAuthors (filter : CommentFilter) (l : List CommentRow) : List CommentRow :=
  match filter.authorHandles with
  | some hs => if 0 < hs.length then l.filter (fun r => hs.contains r.authorHandle) else l
  | none => l

/-- `if (filter.rootTweetAuthor)` keep rows whose conversation root author
matches. -/
def stageRootAuthor (store : List DevRawCommentRow) (filter : CommentFilter)
    (l : List CommentRow) : List CommentRow :=
  if jsTruthyOptStr filter.rootTweetAuthor then
    l.filter (fun r => rootAuthorByTweetId store r.tweetId = filter.rootTweetAuthor)
  else l

/-- `if (filter.startTime)` keep rows created at or after it. -/
def stageStart (filter : CommentFilter) (l : List CommentRow) : List CommentRow :=
  match filter.startTime with
  | some st => l.filter (fun r => st ≤ r.createdAt)
  | none => l

/-- `if (filter.endTime)` keep rows created at or before it. -/
def stageEnd (filter : CommentFilter) (l : List CommentRow) : List CommentRow :=
  match filter.endTime with
  | some et => l.filter (fun r => r.createdAt ≤ et)
  | none => l

/-- The `filter.analyzed === true / === false` stage. -/
def stageAnalyzed (filter : CommentFilter) (l : List CommentRow) : List CommentRow :=
  match filter.analyzed with
  | some true => l.filter (fun r => ¬(r.sentiment = none))
  | some false => l.filter (fun r => r.sentiment = none)
  | none => l

/-- The sentiment filter applied when `filter.analyzed !== false`. -/
def stageSentiments (filter : CommentFilter) (l : List CommentRow) : List CommentRow :=
  match filter.sentiments with
  | some ss =>
      if 0 < ss.length then
        l.filter (fun r =>
          match r.sentiment with
          | some x => ss.contains x
          | none => false)
      else l
  | none => l

/-- The minimum-value-score filter, active only when the caller customised
the range (`hasCustomValueScoreRange`). -/
def stageValueScoreMin (filter : CommentFilter) (l : List CommentRow) : List CommentRow :=
  match hasCustomValueScoreRange filter.minValueScore filter.maxValueScore,
      filter.minValueScore with
  | true, some mn => l.filter (fun r => mn ≤ r.valueScore.getD (-1))
  | _, _ => l

/-- The maximum-value-score filter, active only when the caller customised
the range. -/
def stageValueScoreMax (filter : CommentFilter) (l : List CommentRow) : List CommentRow :=
  match hasCustomValueScoreRange filter.minValueScore filter.maxValueScore,
      filter.maxValueScore with
  | true, some mx => l.filter (fun r => r.valueScore.getD 2 ≤ mx)
  | _, _ => l

/-- Both value-score range filters in source order. -/
def stageValueScore (filter : CommentFilter) (l : List CommentRow) : List CommentRow :=
  stageValueScoreMax filter (stageValueScoreMin filter l)

/-- The stage guarded by `if (filter.analyzed !== false)`. -/
def stageAnalysisFilters (filter : CommentFilter) (l : List CommentRow) :
    List CommentRow :=
  if filter.analyzed = some false then l
  else stageValueScore filter (stageSentiments filter l)

/-- `getCommentsWithAnalysis` of `db.ts`, development branch: project every
stored row, keep only real replies (`replyId !== tweetId`), apply the
optional filter stages in source order, sort, and slice by `offset`/`limit`
(`limit || 50`, so an explicit 0 falls back to 50). -/
def getCommentsWithAnalysis (filter : CommentFilter) (store : List DevRawCommentRow)
    (analyzed : String → Option DevAnalyzedRow) : List CommentRow :=
  let rows1 := (store.map (projectCommentRow store analyzed)).filter
    (fun r => ¬(r.replyId = r.tweetId))
  let rows8 := stageAnalysisFilters filter (stageAnalyzed filter (stageEnd filter
    (stageStart filter (stageRootAuthor store filter (stageAuthors filter
      (stageTweetId filter rows1))))))
  let sorted := sortLe (commentLe (filter.sortBy.getD .time_desc)) rows8
  let off := filter.offset.getD 0
  let lim := match filter.limit with
    | some n => if n = 0 then 50 else n
    | none => 50
  (sorted.drop off).take lim

/-! ## Shared helper lemmas -/

/-- `getNextAccountCookie` on a nonempty ring, in explicit form. -/
theorem getNextAccountCookie_nonempty (l : List String) (i : Nat) (h : ¬(l = [])) :
    getNextAccountCookie ⟨l, i⟩ = (l[i]?, ⟨l, (i + 1) % l.length⟩) := by
  unfold getNextAccountCookie
  simp only [List.length_eq_zero, h, if_false]

/-- Outputs of `k` consecutive `next()` calls starting at cursor `i`, while
the calls stay within one sweep of the ring. -/
theorem nextCalls_outputs (l : List String) :
    ∀ (k i : Nat), i + k ≤ l.length →
      (nextCalls k ⟨l, i⟩).1 = ((l.drop i).take k).map some := by
  intro k
  induction k with
  | zero => intro i _; simp [nextCalls]
  | succ n ih =>
      intro i h
      have hi : i < l.length := by omega
      have hne : ¬(l = []) := by
        intro hcon; rw [hcon] at hi; simp at hi
      have hdrop : l.drop i = l[i] :: l.drop (i + 1) := List.drop_eq_getElem_cons hi
      rw [hdrop, List.take_succ_cons, List.map_cons]
      simp only [nextCalls, getNextAccountCookie_nonempty l i hne]
      by_cases hwrap : i + 1 < l.length
      · have hmod : (i + 1) % l.length = i + 1 := Nat.mod_eq_of_lt hwrap
        rw [hmod]
        have := ih (i + 1) (by omega)
        simp only [this, List.getElem?_eq_getElem hi]
      · have hend : i + 1 = l.length := by omega
        have hn : n = 0 := by omega
        subst hn
        have hdrop1 : l.drop (i + 1) = [] := List.drop_eq_nil_of_le (by omega)
        simp [nextCalls, hdrop1, List.getElem?_eq_getElem hi]

/-! ## C1 -/

/-- C1: writing to the progress store merges monotonically: after
`setScrapeProgress(key, p)` the stored `repliesFound` is the maximum of the
previously stored value and `p.repliesFound`, while every other field (and
the update instant) is overwritten from the new observation. -/
theorem setScrapeProgress_monotonic_merge (store : ProgressStore) (key : String)
    (p : ScrapeProgress) (now : Int) (prev : StoredProgress)
    (hprev : store key = some prev) :
    ∃ q : StoredProgress,
      setScrapeProgress key p now store key = some q ∧
      q.progress.repliesFound = max prev.progress.repliesFound p.repliesFound ∧
      q.progress.stage = p.stage ∧
      q.progress.message = p.message ∧
      q.progress.tweetsFound = p.tweetsFound ∧
      q.progress.currentTweet = p.currentTweet ∧
      q.progress.totalTweets = p.totalTweets ∧
      q.progress.currentAccount = p.currentAccount ∧
      q.progress.totalAccounts = p.totalAccounts ∧
      q.updatedAt = now := by
  by_cases h : p.repliesFound < prev.progress.repliesFound
  · refine ⟨⟨{ p with repliesFound := prev.progress.repliesFound }, now⟩,
      ?_, ?_, rfl, rfl, rfl, rfl, rfl, rfl, rfl, rfl⟩
    · simp [setScrapeProgress, hprev, h]
    · simp only []
      omega
  · refine ⟨⟨p, now⟩, ?_, ?_, rfl, rfl, rfl, rfl, rfl, rfl, rfl, rfl⟩
    · simp [setScrapeProgress, hprev, h]
    · simp only []
      omega

/-- Concrete instance of C1: a later observation reporting `repliesFound =
15` over a stored `36` keeps `36`, refreshes the timestamp and overwrites
the message. -/
theorem setScrapeProgress_monotonic_merge_witness :
    ∃ q : StoredProgress,
      setScrapeProgress "account:demo"
        ⟨.fetching_replies, "m2", 1, 15, 1, 3, 0, 1⟩
        20
        (fun k => if k = "account:demo" then
            some ⟨⟨.fetching_replies, "m1", 1, 36, 1, 3, 0, 1⟩, 10⟩
          else none)
        "account:demo" = some q ∧
      q.progress.repliesFound =
        max (36 : Nat) 15 ∧
      q.progress.stage = Stage.fetching_replies ∧
      q.progress.message = "m2" ∧
      q.progress.tweetsFound = 1 ∧
      q.progress.currentTweet = 1 ∧
      q.progress.totalTweets = 3 ∧
      q.progress.currentAccount = 0 ∧
      q.progress.totalAccounts = 1 ∧
      q.updatedAt = 20 :=
  setScrapeProgress_monotonic_merge _ "account:demo" _ 20
    ⟨⟨.fetching_replies, "m1", 1, 36, 1, 3, 0, 1⟩, 10⟩ (by simp)

/-! ## C4 -/

/-- C4 (amended): `parseCount` strips commas and expands a `K` multiplier,
but does not handle `M`: `"7M"` parses to `7` via the `parseInt` branch.
The remaining documented values hold. -/
theorem parseCount_values :
    parseCount (some "1.2K") = some 1200 ∧
    parseCount (some "3,400") = some 3400 ∧
    parseCount (some "7M") = some 7 ∧
    parseCount (some "") = some 0 ∧
    parseCount none = some 0 := by
  refine ⟨?_, ?_, ?_, ?_, ?_⟩
  · simp +decide [parseCount, stripCommaK, parseFloatJS, parseIntJS, leadingDigits,
      digitsVal]
    norm_num
  · simp +decide [parseCount, stripCommaK, parseFloatJS, parseIntJS, leadingDigits,
      digitsVal]
  · simp +decide [parseCount, stripCommaK, parseFloatJS, parseIntJS, leadingDigits,
      digitsVal]
  · simp +decide [parseCount]
  · simp [parseCount]

/-- C4 counterexample: the claim `parseCount("7M") == 7_000_000` is false on
the code; the `M` suffix is neither stripped nor expanded, so `parseInt`
stops at the digits and yields `7`. -/
theorem parseCount_7M_is_7 :
    parseCount (some "7M") = some 7 ∧ ¬(parseCount (some "7M") = some 7000000) := by
  have h : parseCount (some "7M") = some 7 := by
    simp +decide [parseCount, stripCommaK, parseFloatJS, parseIntJS, leadingDigits,
      digitsVal]
  refine ⟨h, ?_⟩
  rw [h]
  intro hcon
  have : (7 : ℚ) = 7000000 := by exact Option.some.inj hcon
  norm_num at this

/-! ## C7 -/

/-- C7: on a ring of `N ≥ 1` credentials with the cursor at 0, `N`
consecutive `next()` calls hand out exactly the ring, in order (so every
credential exactly once); each call on a nonempty ring returns the element
at the cursor and advances the cursor modulo the size; on an empty ring
`next()` returns `undefined` and leaves the state unchanged. -/
theorem credential_round_robin (l : List String) (hl : ¬(l = [])) :
    (nextCalls l.length ⟨l, 0⟩).1 = l.map some ∧
    (∀ s : RotatorState, s.accountCookies = [] → getNextAccountCookie s = (none, s)) ∧
    (∀ s : RotatorState, ¬(s.accountCookies = []) →
      getNextAccountCookie s =
        (s.accountCookies[s.currentAccountIndex]?,
         { s with currentAccountIndex :=
             (s.currentAccountIndex + 1) % s.accountCookies.length })) := by
  refine ⟨?_, ?_, ?_⟩
  · have := nextCalls_outputs l l.length 0 (by omega)
    simpa using this
  · intro s hs
    unfold getNextAccountCookie
    simp [hs]
  · intro s hs
    obtain ⟨cookies, idx⟩ := s
    exact getNextAccountCookie_nonempty cookies idx hs

/-- Concrete instance of C7: three credentials are handed out exactly once
each over three calls; the empty ring yields `none`; one call from cursor 1
of a two-ring returns the second credential and wraps the cursor to 0. -/
theorem credential_round_robin_witness :
    (nextCalls 3 ⟨["a", "b", "c"], 0⟩).1 = [some "a", some "b", some "c"] ∧
    getNextAccountCookie ⟨[], 5⟩ = (none, ⟨[], 5⟩) ∧
    getNextAccountCookie ⟨["a", "b"], 1⟩ = (some "b", ⟨["a", "b"], 0⟩) := by
  refine ⟨?_, ?_, ?_⟩
  · have h := (credential_round_robin ["a", "b", "c"] (by simp)).1
    simpa using h
  · exact (credential_round_robin ["x"] (by simp)).2.1 ⟨[], 5⟩ rfl
  · have h := (credential_round_robin ["x"] (by simp)).2.2 ⟨["a", "b"], 1⟩ (by simp)
    simpa using h

/-! ## C10 -/

/-- C10: after `getNextAccountCookie()` hands out the credential at index
`i` of a nonempty ring, `getCurrentAccountIndex()` returns `(i+1) mod N`;
the account harvester snapshots the index after taking the credential, so
the recorded `currentAccount` is `(i+1) mod N`, which for `N > 1` differs
from the index of the credential actually in use. -/
theorem currentAccount_records_next_credential (l : List String) (i : Nat)
    (hi : i < l.length) :
    scrapeUserCommentsSnapshot none ⟨l, i⟩ =
      (l[i]?, (i + 1) % l.length, ⟨l, (i + 1) % l.length⟩) ∧
    (1 < l.length → ¬((i + 1) % l.length = i)) := by
  have hne : ¬(l = []) := by
    intro hcon; rw [hcon] at hi; simp at hi
  constructor
  · unfold scrapeUserCommentsSnapshot
    rw [getNextAccountCookie_nonempty l i hne]
    rfl
  · intro hN
    by_cases hwrap : i + 1 < l.length
    · rw [Nat.mod_eq_of_lt hwrap]; omega
    · have hend : i + 1 = l.length := by omega
      rw [hend, Nat.mod_self]
      omega

/-- Concrete instance of C10: with ring `["a","b","c"]` and cursor 0, the
harvester uses credential `"a"` but records `currentAccount = 1`. -/
theorem currentAccount_records_next_credential_witness :
    scrapeUserCommentsSnapshot none ⟨["a", "b", "c"], 0⟩ =
      (some "a", 1, ⟨["a", "b", "c"], 1⟩) ∧
    ¬((0 + 1) % 3 = 0) := by
  have h := currentAccount_records_next_credential ["a", "b", "c"] 0 (by simp)
  refine ⟨?_, ?_⟩
  · have h1 := h.1
    simpa using h1
  · have h2 := h.2 (by simp)
    simpa using h2

/-! ## C8 -/

/-- A prefix occurrence is a substring occurrence. -/
theorem containsSub_of_isPrefixOf (hay pat : List Char) (h : pat.isPrefixOf hay = true) :
    containsSub hay pat = true := by
  cases hay with
  | nil =>
      cases pat with
      | nil => rfl
      | cons c cs => simp [List.isPrefixOf] at h
  | cons c rest => simp [containsSub, h]

/-- `containsSub` finds a pattern planted anywhere in the haystack. -/
theorem containsSub_append (pat : List Char) :
    ∀ (x y : List Char), containsSub (x ++ (pat ++ y)) pat = true := by
  intro x
  induction x with
  | nil =>
      intro y
      apply containsSub_of_isPrefixOf
      rw [List.isPrefixOf_iff_prefix]
      exact List.prefix_append pat y
  | cons c cs ih =>
      intro y
      simp only [List.cons_append, containsSub, List.append_eq]
      rw [ih y]
      simp

/-- The case-insensitive matcher accepts any message surrounding the
pattern. -/
theorem containsCI_surround (x pat y : String) :
    containsCI (x ++ pat ++ y) pat = true := by
  unfold containsCI
  have hdata : (x ++ pat ++ y).data = x.data ++ (pat.data ++ y.data) := by
    simp [List.append_assoc]
  rw [hdata, List.map_append, List.map_append]
  exact containsSub_append _ _ _

/-- Any error message containing one of the four launch-failure pattern
strings matches the predicate. -/
theorem isBrowserLaunchFailure_of_mem (x y pat : String)
    (hmem : pat ∈ browserLaunchFailurePatterns) :
    isBrowserLaunchFailure (x ++ pat ++ y) = true := by
  unfold isBrowserLaunchFailure
  rw [List.any_eq_true]
  exact ⟨pat, hmem, containsCI_surround x pat y⟩

/-- The Apify fallback tail always reports `method: 'apify'`. -/
theorem apifyFallbackResult_method (a : ApifyOutcome) (e : String) :
    (apifyFallbackResult a e).method = some "apify" := by
  unfold apifyFallbackResult
  split <;> rfl

/-- C8: when the browser attempt throws an error matching the
browser-launch-failure predicate and an Apify token is configured,
`scrapeByTweetId` runs the Apify client for the same tweet and returns its
outcome (tagged `method: 'apify'`) instead of the browser error; and each of
the four documented message shapes matches the predicate wherever it occurs
in the message. -/
theorem browser_launch_failure_switches_to_apify (token err : String)
    (apifyRun : ApifyOutcome) (hmatch : isBrowserLaunchFailure err = true) :
    scrapeByTweetIdDispatch (some token) (.thrown err) apifyRun =
      apifyFallbackResult apifyRun err ∧
    (scrapeByTweetIdDispatch (some token) (.thrown err) apifyRun).method = some "apify" ∧
    (apifyRun.success = true →
      (scrapeByTweetIdDispatch (some token) (.thrown err) apifyRun).success = true ∧
      (scrapeByTweetIdDispatch (some token) (.thrown err) apifyRun).commentsCount =
        apifyRun.commentsCount) ∧
    (∀ x y : String,
      isBrowserLaunchFailure (x ++ "Browser launch failed" ++ y) = true ∧
      isBrowserLaunchFailure (x ++ "Failed to launch the browser process" ++ y) = true ∧
      isBrowserLaunchFailure (x ++ "libnss3.so" ++ y) = true ∧
      isBrowserLaunchFailure (x ++ "Browser initialization timed out" ++ y) = true) := by
  have hdisp : scrapeByTweetIdDispatch (some token) (.thrown err) apifyRun =
      apifyFallbackResult apifyRun err := by
    unfold scrapeByTweetIdDispatch
    simp [hmatch]
  refine ⟨hdisp, ?_, ?_, ?_⟩
  · rw [hdisp]; exact apifyFallbackResult_method apifyRun err
  · intro hs
    rw [hdisp]
    unfold apifyFallbackResult
    simp [hs]
  · intro x y
    refine ⟨?_, ?_, ?_, ?_⟩ <;>
      exact isBrowserLaunchFailure_of_mem x y _ (by simp [browserLaunchFailurePatterns])

/-- Concrete instance of C8: a thrown `libnss3.so` load error with a
configured token routes to the Apify run, whose successful outcome is
returned with `method: 'apify'`. -/
theorem browser_launch_failure_switches_to_apify_witness :
    scrapeByTweetIdDispatch (some "tok")
        (.thrown "Failed to launch the browser process: libnss3.so missing")
        ⟨true, none, 42⟩ =
      apifyFallbackResult ⟨true, none, 42⟩
        "Failed to launch the browser process: libnss3.so missing" ∧
    (scrapeByTweetIdDispatch (some "tok")
        (.thrown "Failed to launch the browser process: libnss3.so missing")
        ⟨true, none, 42⟩).method = some "apify" ∧
    (scrapeByTweetIdDispatch (some "tok")
        (.thrown "Failed to launch the browser process: libnss3.so missing")
        ⟨true, none, 42⟩).success = true := by
  have h := browser_launch_failure_switches_to_apify "tok"
    "Failed to launch the browser process: libnss3.so missing" ⟨true, none, 42⟩
    (by decide)
  exact ⟨h.1, h.2.1, (h.2.2.1 rfl).1⟩

/-! ## C6 -/

/-- `updateExistingRow` rewrites exactly the first matching row. -/
theorem updateExistingRow_split (nc : InsertRawComment) (now : Int)
    (pre : List DevRawCommentRow) (old : DevRawCommentRow) (post : List DevRawCommentRow)
    (hpre : ∀ r ∈ pre, ¬(r.replyId = nc.replyId)) (hold : old.replyId = nc.replyId) :
    updateExistingRow nc now (pre ++ old :: post) =
      pre ++
        { old with text := nc.text, likeCount := nc.likeCount.getD old.likeCount,
                   fetchedAt := now } :: post := by
  induction pre with
  | nil => simp [updateExistingRow, hold]
  | cons r rs ih =>
      have hr : ¬(r.replyId = nc.replyId) := hpre r (by simp)
      simp only [List.cons_append, updateExistingRow, hr, if_false, if_neg hr,
        List.append_eq]
      rw [ih (fun x hx => hpre x (by simp [hx]))]

/-- C6: re-inserting a record whose `replyId` already exists updates
`likeCount` to the newest observation (falling back to the stored value when
the observation carries none), refreshes `fetchedAt`, leaves `createdAt`
unchanged, and keeps exactly one row for that id (and the total row count
unchanged). -/
theorem insertRawComment_upsert_frame (c : InsertRawComment) (now : Int) (s : DevStore)
    (pre : List DevRawCommentRow) (old : DevRawCommentRow) (post : List DevRawCommentRow)
    (hsplit : s.rows = pre ++ old :: post)
    (hpre : ∀ r ∈ pre, ¬(r.replyId = c.replyId))
    (hold : old.replyId = c.replyId)
    (hpost : ∀ r ∈ post, ¬(r.replyId = c.replyId)) :
    (insertRawComment c now s).rows =
      pre ++
        { old with text := normalizeCorruptedMediaTags c.text,
                   likeCount := c.likeCount.getD old.likeCount,
                   fetchedAt := now } :: post ∧
    (insertRawComment c now s).rows.length = s.rows.length ∧
    (insertRawComment c now s).rows.countP (fun r => r.replyId = c.replyId) = 1 ∧
    ∃ upd ∈ (insertRawComment c now s).rows,
      upd.replyId = c.replyId ∧
      upd.likeCount = c.likeCount.getD old.likeCount ∧
      upd.fetchedAt = now ∧
      upd.createdAt = old.createdAt := by
  have hany : s.rows.any (fun r => r.replyId = c.replyId) = true := by
    rw [hsplit, List.any_eq_true]
    exact ⟨old, by simp, by simp [hold]⟩
  have hrows : (insertRawComment c now s).rows =
      pre ++
        { old with text := normalizeCorruptedMediaTags c.text,
                   likeCount := c.likeCount.getD old.likeCount,
                   fetchedAt := now } :: post := by
    unfold insertRawComment
    simp only [hany, if_true]
    rw [hsplit]
    exact updateExistingRow_split _ now pre old post hpre hold
  refine ⟨hrows, ?_, ?_, ?_⟩
  · rw [hrows, hsplit]; simp
  · rw [hrows, List.countP_append, List.countP_cons]
    have h1 : pre.countP (fun r => decide (r.replyId = c.replyId)) = 0 :=
      List.countP_eq_zero.mpr (by intro a ha; simpa using hpre a ha)
    have h2 : post.countP (fun r => decide (r.replyId = c.replyId)) = 0 :=
      List.countP_eq_zero.mpr (by intro a ha; simpa using hpost a ha)
    simp [h1, h2, hold]
  · refine ⟨{ old with
                text := normalizeCorruptedMediaTags c.text,
                likeCount := c.likeCount.getD old.likeCount,
                fetchedAt := now },
      by rw [hrows]; simp, by simpa using hold, rfl, rfl, rfl⟩

/-- Concrete instance of C6: re-inserting reply `"5"` with `likeCount 7`
keeps one row, updates `likeCount` and `fetchedAt`, leaves `createdAt`. -/
theorem insertRawComment_upsert_frame_witness :
    (insertRawComment ⟨"5", "1", "a", "n", "h", "hey", 999, some 7, some "1"⟩ 60
        ⟨[⟨1, "5", "1", "a", "n", "h", "hi", 100, 3, some "1", 50⟩], 2⟩).rows =
      [⟨1, "5", "1", "a", "n", "h", "hey", 100, 7, some "1", 60⟩] ∧
    (insertRawComment ⟨"5", "1", "a", "n", "h", "hey", 999, some 7, some "1"⟩ 60
        ⟨[⟨1, "5", "1", "a", "n", "h", "hi", 100, 3, some "1", 50⟩], 2⟩).rows.countP
      (fun r => r.replyId = "5") = 1 := by
  have h := insertRawComment_upsert_frame
    ⟨"5", "1", "a", "n", "h", "hey", 999, some 7, some "1"⟩ 60
    ⟨[⟨1, "5", "1", "a", "n", "h", "hi", 100, 3, some "1", 50⟩], 2⟩
    [] ⟨1, "5", "1", "a", "n", "h", "hi", 100, 3, some "1", 50⟩ []
    rfl (by intro r hr; simp at hr) rfl (by intro r hr; simp at hr)
  refine ⟨?_, h.2.2.1⟩
  have h1 := h.1
  simpa [normalizeCorruptedMediaTags] using h1

/-! ## C5 -/

/-- `updateExistingRow` leaves the first matching row holding exactly the
(normalised) new text. -/
theorem find?_updateExistingRow (nc : InsertRawComment) (now : Int) :
    ∀ rows : List DevRawCommentRow,
      rows.any (fun r => r.replyId = nc.replyId) = true →
      ((updateExistingRow nc now rows).find?
          (fun r => r.replyId = nc.replyId)).map (·.text) = some nc.text := by
  intro rows
  induction rows with
  | nil => intro h; simp at h
  | cons r rs ih =>
      intro h
      by_cases hr : r.replyId = nc.replyId
      · simp [updateExistingRow, hr]
      · simp only [updateExistingRow, if_neg hr]
        rw [List.find?_cons_of_neg _ (by simpa using hr)]
        apply ih
        simpa [hr] using h

/-- C5 (amended): every write stores exactly the normalised text — the three
mis-encoded byte sequences are rewritten to the canonical tags — and an
upsert overwrites the stored text with the new normalised text, so a
placeholder tag survives a later upsert only when the later observation's
text still carries it. -/
theorem insertRawComment_normalizes_on_write (c : InsertRawComment) (now : Int)
    (s : DevStore) :
    ((insertRawComment c now s).rows.find?
        (fun r => r.replyId = c.replyId)).map (·.text) =
      some (normalizeCorruptedMediaTags c.text) ∧
    normalizeCorruptedMediaTags "a[鍥剧墖]b" = "a[图片]b" ∧
    normalizeCorruptedMediaTags "a[瑙嗛]b" = "a[视频]b" ∧
    normalizeCorruptedMediaTags "a[閾炬帴]b" = "a[链接]b" := by
  refine ⟨?_, by decide, by decide, by decide⟩
  by_cases hany : s.rows.any (fun r => r.replyId = c.replyId) = true
  · unfold insertRawComment
    simp only [hany, if_true]
    exact find?_updateExistingRow
      { c with text := normalizeCorruptedMediaTags c.text } now s.rows hany
  · have hfalse : s.rows.any (fun r => r.replyId = c.replyId) = false :=
      Bool.eq_false_iff.mpr hany
    unfold insertRawComment
    simp only [hfalse, Bool.false_eq_true, if_false]
    rw [List.find?_append]
    have hnone : s.rows.find? (fun r => r.replyId = c.replyId) = none := by
      rw [List.find?_eq_none]
      intro x hx
      have := List.any_eq_false.mp hfalse x hx
      simpa using this
    rw [hnone]
    simp

/-- C5 counterexample to the claim as stated: a record persisted with
`[图片]` in its text loses the tag when a later upsert of the same id writes
a text without it. -/
theorem media_tag_lost_on_upsert :
    (∃ r ∈ (insertRawComment ⟨"9", "1", "a", "n", "h", "好 [图片]", 0, some 1, some "1"⟩
        10 ⟨[], 1⟩).rows,
      r.replyId = "9" ∧ textHasTag r.text "[图片]" = true) ∧
    (∀ r ∈ (insertRawComment ⟨"9", "1", "a", "n", "h", "好", 0, some 2, some "1"⟩ 20
        (insertRawComment ⟨"9", "1", "a", "n", "h", "好 [图片]", 0, some 1, some "1"⟩
          10 ⟨[], 1⟩)).rows,
      r.replyId = "9" → textHasTag r.text "[图片]" = false) := by
  decide

/-! ## C9 -/

/-- Whatever branch `processApifyItem` takes, the persisted key is the item
id. -/
theorem processApifyItem_replyId (tweetId nowISO : String) (item : ApifyItem)
    (itemId : String) :
    (processApifyItem tweetId nowISO item itemId).replyId = itemId := by
  simp only [processApifyItem, mkApifyRoot]
  split <;> rfl

/-- Step lemma: an item with an empty trimmed id is skipped. -/
theorem processApifyItems_cons_noId (tweetId nowISO : String) (item : ApifyItem)
    (rest : List ApifyItem) (h : jsTrim (toStringSafe item.id) = "") :
    processApifyItems tweetId nowISO (item :: rest) =
      processApifyItems tweetId nowISO rest := by
  simp [processApifyItems, h]

/-- Step lemma: an item failing the conversation filter is skipped. -/
theorem processApifyItems_cons_noConv (tweetId nowISO : String) (item : ApifyItem)
    (rest : List ApifyItem) (h1 : ¬(jsTrim (toStringSafe item.id) = ""))
    (h2 : ¬(sameConversation tweetId item (jsTrim (toStringSafe item.id)) = true)) :
    processApifyItems tweetId nowISO (item :: rest) =
      processApifyItems tweetId nowISO rest := by
  simp [processApifyItems, h1, h2]

/-- Step lemma: a kept item is persisted and its id compared to the root. -/
theorem processApifyItems_cons_keep (tweetId nowISO : String) (item : ApifyItem)
    (rest : List ApifyItem) (h1 : ¬(jsTrim (toStringSafe item.id) = ""))
    (h2 : sameConversation tweetId item (jsTrim (toStringSafe item.id)) = true) :
    processApifyItems tweetId nowISO (item :: rest) =
      (processApifyItem tweetId nowISO item (jsTrim (toStringSafe item.id)) ::
        (processApifyItems tweetId nowISO rest).1,
       decide (jsTrim (toStringSafe item.id) = tweetId) ||
        (processApifyItems tweetId nowISO rest).2) := by
  simp [processApifyItems, h1, h2]

/-- Step lemma: `keptItemIds` on a skipped item (no id). -/
theorem keptItemIds_cons_noId (tweetId : String) (item : ApifyItem)
    (rest : List ApifyItem) (h : jsTrim (toStringSafe item.id) = "") :
    keptItemIds tweetId (item :: rest) = keptItemIds tweetId rest := by
  simp [keptItemIds, List.filterMap_cons, h]

/-- Step lemma: `keptItemIds` on a skipped item (filter fails). -/
theorem keptItemIds_cons_noConv (tweetId : String) (item : ApifyItem)
    (rest : List ApifyItem) (h1 : ¬(jsTrim (toStringSafe item.id) = ""))
    (h2 : ¬(sameConversation tweetId item (jsTrim (toStringSafe item.id)) = true)) :
    keptItemIds tweetId (item :: rest) = keptItemIds tweetId rest := by
  simp [keptItemIds, List.filterMap_cons, h1, h2]

/-- Step lemma: `keptItemIds` on a kept item. -/
theorem keptItemIds_cons_keep (tweetId : String) (item : ApifyItem)
    (rest : List ApifyItem) (h1 : ¬(jsTrim (toStringSafe item.id) = ""))
    (h2 : sameConversation tweetId item (jsTrim (toStringSafe item.id)) = true) :
    keptItemIds tweetId (item :: rest) =
      jsTrim (toStringSafe item.id) :: keptItemIds tweetId rest := by
  simp [keptItemIds, List.filterMap_cons, h1, h2]

/-- The persisted keys of the dataset loop are exactly the kept item ids, in
dataset order. -/
theorem processApifyItems_ids (tweetId nowISO : String) :
    ∀ items : List ApifyItem,
      (processApifyItems tweetId nowISO items).1.map (·.replyId) =
        keptItemIds tweetId items := by
  intro items
  induction items with
  | nil => rfl
  | cons item rest ih =>
      by_cases hid : jsTrim (toStringSafe item.id) = ""
      · rw [processApifyItems_cons_noId _ _ _ _ hid, keptItemIds_cons_noId _ _ _ hid]
        exact ih
      · by_cases hsame :
            sameConversation tweetId item (jsTrim (toStringSafe item.id)) = true
        · rw [processApifyItems_cons_keep _ _ _ _ hid hsame,
            keptItemIds_cons_keep _ _ _ hid hsame]
          simp only [List.map_cons, processApifyItem_replyId, ih]
        · rw [processApifyItems_cons_noConv _ _ _ _ hid hsame,
            keptItemIds_cons_noConv _ _ _ hid hsame]
          exact ih

/-- The loop's `rootInserted` flag records whether a kept item carried the
root id. -/
theorem processApifyItems_rootFlag (tweetId nowISO : String) :
    ∀ items : List ApifyItem,
      (processApifyItems tweetId nowISO items).2 =
        (keptItemIds tweetId items).contains tweetId := by
  intro items
  induction items with
  | nil => rfl
  | cons item rest ih =>
      by_cases hid : jsTrim (toStringSafe item.id) = ""
      · rw [processApifyItems_cons_noId _ _ _ _ hid, keptItemIds_cons_noId _ _ _ hid]
        exact ih
      · by_cases hsame :
            sameConversation tweetId item (jsTrim (toStringSafe item.id)) = true
        · have hbeq : (decide (jsTrim (toStringSafe item.id) = tweetId)) =
              (tweetId == jsTrim (toStringSafe item.id)) := by
            by_cases hroot : jsTrim (toStringSafe item.id) = tweetId
            · rw [hroot]; simp
            · have hsymm : ¬(tweetId = jsTrim (toStringSafe item.id)) :=
                fun hcon => hroot hcon.symm
              simp [hroot, hsymm]
          rw [processApifyItems_cons_keep _ _ _ _ hid hsame,
            keptItemIds_cons_keep _ _ _ hid hsame, List.contains_cons, ih, hbeq]
        · rw [processApifyItems_cons_noConv _ _ _ _ hid hsame,
            keptItemIds_cons_noConv _ _ _ hid hsame]
          exact ih

/-- Every record the dataset loop persists comes from a kept item. -/
theorem processApifyItems_mem (tweetId nowISO : String) :
    ∀ (items : List ApifyItem) (rec : ApifySaved),
      rec ∈ (processApifyItems tweetId nowISO items).1 →
      ∃ item ∈ items,
        ¬(jsTrim (toStringSafe item.id) = "") ∧
        sameConversation tweetId item (jsTrim (toStringSafe item.id)) = true ∧
        rec = processApifyItem tweetId nowISO item (jsTrim (toStringSafe item.id)) := by
  intro items
  induction items with
  | nil => intro rec h; simp [processApifyItems] at h
  | cons item rest ih =>
      intro rec h
      by_cases hid : jsTrim (toStringSafe item.id) = ""
      · rw [processApifyItems_cons_noId _ _ _ _ hid] at h
        obtain ⟨it, hmem, hrest⟩ := ih rec h
        exact ⟨it, List.mem_cons_of_mem _ hmem, hrest⟩
      · by_cases hsame :
            sameConversation tweetId item (jsTrim (toStringSafe item.id)) = true
        · rw [processApifyItems_cons_keep _ _ _ _ hid hsame] at h
          rcases List.mem_cons.mp h with h | h
          · exact ⟨item, List.mem_cons_self _ _, hid, hsame, h⟩
          · obtain ⟨it, hmem, hrest⟩ := ih rec h
            exact ⟨it, List.mem_cons_of_mem _ hmem, hrest⟩
        · rw [processApifyItems_cons_noConv _ _ _ _ hid hsame] at h
          obtain ⟨it, hmem, hrest⟩ := ih rec h
          exact ⟨it, List.mem_cons_of_mem _ hmem, hrest⟩

/-- C9 (amended): processing the fetched dataset for root id `R` keeps
exactly the items with a nonempty (trimmed) id satisfying
`conversationId == R ∨ inReplyToStatusId == R ∨ id == R`; the item with
`id == R` is persisted as the root record (own id as `tweetId`, no
`replyTo`, `authorId = "unknown"`); every other kept item becomes a reply
with `replyTo = inReplyToStatusId` when nonempty and `R` otherwise, with
missing fields defaulting to `"unknown"`/`"Unknown"`/`0`; and when no item
with `id == R` appears, an empty root record with id `R` is appended. -/
theorem apify_dataset_processing (tweetId nowISO : String) (items : List ApifyItem) :
    (apifyDatasetEffect tweetId nowISO items).map (·.replyId) =
      keptItemIds tweetId items ++
        (if (keptItemIds tweetId items).contains tweetId then [] else [tweetId]) ∧
    (∀ rec ∈ apifyDatasetEffect tweetId nowISO items, rec.replyId = tweetId →
      rec.tweetId = tweetId ∧ rec.replyTo = none ∧ rec.authorId = "unknown") ∧
    (∀ rec ∈ apifyDatasetEffect tweetId nowISO items, ¬(rec.replyId = tweetId) →
      ∃ item ∈ items,
        jsTrim (toStringSafe item.id) = rec.replyId ∧
        sameConversation tweetId item rec.replyId = true ∧
        rec.replyTo = some (if toStringSafe item.inReplyToStatusId = "" then tweetId
          else toStringSafe item.inReplyToStatusId) ∧
        rec.tweetId = (if toStringSafe item.inReplyToStatusId = "" then tweetId
          else toStringSafe item.inReplyToStatusId) ∧
        rec.authorName = toStringSafe item.authorName "Unknown" ∧
        rec.authorHandle = toStringSafe item.authorHandle "unknown" ∧
        rec.authorId = toStringSafe item.authorId "unknown" ∧
        rec.likeCount = item.likeCount.getD 0 ∧
        rec.text = toStringSafe item.text) ∧
    ((keptItemIds tweetId items).contains tweetId = false →
      apifyDatasetEffect tweetId nowISO items =
        (processApifyItems tweetId nowISO items).1 ++
          [mkApifyRoot tweetId "" "Unknown" "unknown" nowISO 0]) := by
  have hids := processApifyItems_ids tweetId nowISO items
  have hflag := processApifyItems_rootFlag tweetId nowISO items
  have hzeta : apifyDatasetEffect tweetId nowISO items =
      (if (processApifyItems tweetId nowISO items).2 = true then
        (processApifyItems tweetId nowISO items).1
      else (processApifyItems tweetId nowISO items).1 ++
        [mkApifyRoot tweetId "" "Unknown" "unknown" nowISO 0]) := rfl
  have heffect : apifyDatasetEffect tweetId nowISO items =
      (if (keptItemIds tweetId items).contains tweetId then
        (processApifyItems tweetId nowISO items).1
      else (processApifyItems tweetId nowISO items).1 ++
        [mkApifyRoot tweetId "" "Unknown" "unknown" nowISO 0]) := by
    rw [hzeta, hflag]
  have hmemOfEffect : ∀ rec ∈ apifyDatasetEffect tweetId nowISO items,
      rec ∈ (processApifyItems tweetId nowISO items).1 ∨
      rec = mkApifyRoot tweetId "" "Unknown" "unknown" nowISO 0 := by
    intro rec hrec
    rw [heffect] at hrec
    by_cases hc : (keptItemIds tweetId items).contains tweetId = true
    · rw [if_pos hc] at hrec; exact Or.inl hrec
    · rw [if_neg hc] at hrec
      rcases List.mem_append.mp hrec with h | h
      · exact Or.inl h
      · exact Or.inr (by simpa using h)
  refine ⟨?_, ?_, ?_, ?_⟩
  · rw [heffect]
    by_cases hc : (keptItemIds tweetId items).contains tweetId = true
    · rw [if_pos hc, if_pos hc, hids, List.append_nil]
    · rw [if_neg hc, if_neg hc, List.map_append, hids]
      rfl
  · intro rec hrec hroot
    rcases hmemOfEffect rec hrec with h | h
    · obtain ⟨item, hmem, hid, hsame, heq⟩ := processApifyItems_mem tweetId nowISO items rec h
      have hrid : (processApifyItem tweetId nowISO item
          (jsTrim (toStringSafe item.id))).replyId = jsTrim (toStringSafe item.id) :=
        processApifyItem_replyId _ _ _ _
      rw [← heq] at hrid
      rw [hrid] at hroot
      rw [heq]
      simp only [processApifyItem, mkApifyRoot]
      rw [if_pos hroot]
      exact ⟨hroot, rfl, rfl⟩
    · rw [h]
      exact ⟨rfl, rfl, rfl⟩
  · intro rec hrec hnroot
    rcases hmemOfEffect rec hrec with h | h
    · obtain ⟨item, hmem, hid, hsame, heq⟩ := processApifyItems_mem tweetId nowISO items rec h
      have hrid : rec.replyId = jsTrim (toStringSafe item.id) := by
        rw [heq]; exact processApifyItem_replyId _ _ _ _
      have hne : ¬(jsTrim (toStringSafe item.id) = tweetId) := by
        intro hcon; exact hnroot (by rw [hrid, hcon])
      refine ⟨item, hmem, hrid.symm, by rw [hrid]; exact hsame, ?_⟩
      rw [heq]
      simp only [processApifyItem]
      rw [if_neg hne]
      by_cases hin : toStringSafe item.inReplyToStatusId = ""
      · simp [hin]
      · simp [hin]
    · exfalso; exact hnroot (by rw [h]; rfl)
  · intro hc
    rw [heffect, if_neg (by intro hcon; rw [hc] at hcon; exact Bool.false_ne_true hcon)]

/-- Concrete instance of C9: a dataset with the root item, one reply and one
foreign item persists exactly the two kept records; the root record carries
no `replyTo`; with no root item in the dataset the empty root is appended. -/
theorem apify_dataset_processing_witness :
    (apifyDatasetEffect "900" "NOW"
        [⟨some "900", some "900", none, some "rt", some "Alice", some "alice", some "1",
           some 5, some "T0"⟩,
         ⟨some "901", some "900", some "900", some "re", some "Bob", some "bob", some "2",
           some 3, some "T1"⟩,
         ⟨some "777", some "123", none, none, none, none, none, none, none⟩]).map
      (·.replyId) = ["900", "901"] ∧
    (processApifyItem "900" "NOW"
        ⟨some "900", some "900", none, some "rt", some "Alice", some "alice", some "1",
          some 5, some "T0"⟩ "900").tweetId = "900" ∧
    (processApifyItem "900" "NOW"
        ⟨some "900", some "900", none, some "rt", some "Alice", some "alice", some "1",
          some 5, some "T0"⟩ "900").replyTo = none ∧
    apifyDatasetEffect "900" "NOW"
        [⟨some "901", some "900", some "900", some "re", some "Bob", some "bob", some "2",
           some 3, some "T1"⟩] =
      (processApifyItems "900" "NOW"
        [⟨some "901", some "900", some "900", some "re", some "Bob", some "bob", some "2",
           some 3, some "T1"⟩]).1 ++
        [mkApifyRoot "900" "" "Unknown" "unknown" "NOW" 0] := by
  have h := apify_dataset_processing "900" "NOW"
    [⟨some "900", some "900", none, some "rt", some "Alice", some "alice", some "1",
       some 5, some "T0"⟩,
     ⟨some "901", some "900", some "900", some "re", some "Bob", some "bob", some "2",
       some 3, some "T1"⟩,
     ⟨some "777", some "123", none, none, none, none, none, none, none⟩]
  have h2 := apify_dataset_processing "900" "NOW"
    [⟨some "901", some "900", some "900", some "re", some "Bob", some "bob", some "2",
       some 3, some "T1"⟩]
  refine ⟨h.1.trans (by decide), ?_, ?_, h2.2.2.2 (by decide)⟩
  · exact (h.2.1 _ (by decide) (by decide)).1
  · exact (h.2.1 _ (by decide) (by decide)).2.1

/-- C9 counterexample to the claim as stated: an item without an id but with
`conversationId == R` satisfies the claim's filter, yet the loop drops it —
only the synthesised empty root is persisted. -/
theorem apify_idless_item_not_kept :
    toStringSafe
      (ApifyItem.mk none (some "900") none (some "hi") none none none none
        none).conversationId = "900" ∧
    apifyDatasetEffect "900" "NOW"
        [⟨none, some "900", none, some "hi", none, none, none, none, none⟩] =
      [mkApifyRoot "900" "" "Unknown" "unknown" "NOW" 0] := by
  exact ⟨rfl, by decide⟩

/-! ## C3 -/

/-- Step lemma: a card below the recommendation cutoff ends the walk. -/
theorem processArticleList_cons_cutoff (rootId : String) (cutoffY : Option ℚ)
    (a : Article) (rest : List Article) (seen : List String) (acc : List Reply)
    (h : breakAtCutoff a.boxY cutoffY = true) :
    processArticleList rootId cutoffY (a :: rest) seen acc = (seen, acc) := by
  simp [processArticleList, h]

/-- Step lemma: a card without an extractable id is skipped. -/
theorem processArticleList_cons_noId (rootId : String) (cutoffY : Option ℚ)
    (a : Article) (rest : List Article) (seen : List String) (acc : List Reply)
    (hcut : ¬(breakAtCutoff a.boxY cutoffY = true)) (hid : a.extractedId = none) :
    processArticleList rootId cutoffY (a :: rest) seen acc =
      processArticleList rootId cutoffY rest seen acc := by
  simp [processArticleList, hcut, hid]

/-- Step lemma: a card with an already-seen id is skipped. -/
theorem processArticleList_cons_seen (rootId : String) (cutoffY : Option ℚ)
    (a : Article) (rest : List Article) (seen : List String) (acc : List Reply)
    (rid : String) (hcut : ¬(breakAtCutoff a.boxY cutoffY = true))
    (hid : a.extractedId = some rid) (hseen : seen.contains rid = true) :
    processArticleList rootId cutoffY (a :: rest) seen acc =
      processArticleList rootId cutoffY rest seen acc := by
  simp only [processArticleList, if_neg hcut, hid]
  rw [if_pos hseen]

/-- Step lemma: an unseen id is marked seen and its reply emitted. -/
theorem processArticleList_cons_new (rootId : String) (cutoffY : Option ℚ)
    (a : Article) (rest : List Article) (seen : List String) (acc : List Reply)
    (rid : String) (hcut : ¬(breakAtCutoff a.boxY cutoffY = true))
    (hid : a.extractedId = some rid) (hseen : seen.contains rid = false) :
    processArticleList rootId cutoffY (a :: rest) seen acc =
      processArticleList rootId cutoffY rest (rid :: seen)
        (acc ++ [mkReply rootId rid a]) := by
  simp only [processArticleList, if_neg hcut, hid]
  rw [if_neg (by intro hcon; rw [hseen] at hcon; exact Bool.false_ne_true hcon)]

/-- The invariant threaded through the reply-enumeration loops of
`scrapeRepliesByTweetId`: the root id is marked seen, emitted ids are
pairwise distinct, marked seen, distinct from the root id, and every
emitted reply points at the root. -/
def EnumInv (rootId : String) (seen : List String) (acc : List Reply) : Prop :=
  rootId ∈ seen ∧
  (acc.map (·.id)).Nodup ∧
  (∀ r ∈ acc, r.id ∈ seen) ∧
  (∀ r ∈ acc, r.replyTo = rootId ∧ ¬(r.id = rootId))

/-- Emitting an unseen reply preserves the invariant. -/
theorem EnumInv_push (rootId : String) (seen : List String) (acc : List Reply)
    (rid : String) (a : Article) (h : EnumInv rootId seen acc)
    (hnew : seen.contains rid = false) :
    EnumInv rootId (rid :: seen) (acc ++ [mkReply rootId rid a]) := by
  obtain ⟨hroot, hnodup, hsub, hprop⟩ := h
  have hnotmem : rid ∉ seen := by simpa using hnew
  have hidnew : (mkReply rootId rid a).id = rid := rfl
  refine ⟨List.mem_cons_of_mem _ hroot, ?_, ?_, ?_⟩
  · rw [List.map_append]
    rw [List.nodup_append]
    refine ⟨hnodup, by simp, ?_⟩
    intro x hx
    simp only [List.map_cons, List.map_nil, hidnew]
    intro hx2
    have hx3 : x = rid := by simpa using hx2
    obtain ⟨r, hr, hrid⟩ := List.mem_map.mp hx
    have hr2 : r.id = rid := by rw [hrid, hx3]
    exact hnotmem (hr2 ▸ hsub r hr)
  · intro r hr
    rcases List.mem_append.mp hr with hr | hr
    · exact List.mem_cons_of_mem _ (hsub r hr)
    · have : r = mkReply rootId rid a := by simpa using hr
      rw [this, hidnew]
      exact List.mem_cons_self _ _
  · intro r hr
    rcases List.mem_append.mp hr with hr | hr
    · exact hprop r hr
    · have heq : r = mkReply rootId rid a := by simpa using hr
      refine ⟨by rw [heq]; rfl, ?_⟩
      rw [heq, hidnew]
      intro hcon
      exact hnotmem (hcon ▸ hroot)

/-- `processArticleList` preserves the enumerator invariant. -/
theorem processArticleList_inv (rootId : String) (cutoffY : Option ℚ) :
    ∀ (arts : List Article) (seen : List String) (acc : List Reply),
      EnumInv rootId seen acc →
      EnumInv rootId (processArticleList rootId cutoffY arts seen acc).1
        (processArticleList rootId cutoffY arts seen acc).2 := by
  intro arts
  induction arts with
  | nil => intro seen acc h; exact h
  | cons a rest ih =>
      intro seen acc h
      by_cases hcut : breakAtCutoff a.boxY cutoffY = true
      · rw [processArticleList_cons_cutoff _ _ _ _ _ _ hcut]; exact h
      · cases hid : a.extractedId with
        | none =>
            rw [processArticleList_cons_noId _ _ _ _ _ _ hcut hid]
            exact ih seen acc h
        | some rid =>
            cases hseen : seen.contains rid with
            | true =>
                rw [processArticleList_cons_seen _ _ _ _ _ _ rid hcut hid hseen]
                exact ih seen acc h
            | false =>
                rw [processArticleList_cons_new _ _ _ _ _ _ rid hcut hid hseen]
                exact ih _ _ (EnumInv_push rootId seen acc rid a h hseen)

/-- Phase A preserves the enumerator invariant. -/
theorem phaseALoop_inv (rootId : String) (expand : Bool) (maxNoNew : Nat) :
    ∀ (script : List Round) (b noNew : Nat) (seen : List String) (acc : List Reply),
      EnumInv rootId seen acc →
      EnumInv rootId (phaseALoop rootId expand maxNoNew script b noNew seen acc).1
        (phaseALoop rootId expand maxNoNew script b noNew seen acc).2 := by
  intro script
  induction script with
  | nil =>
      intro b noNew seen acc h
      cases b <;> simpa [phaseALoop] using h
  | cons rd rest ih =>
      intro b noNew seen acc h
      cases b with
      | zero => simpa [phaseALoop] using h
      | succ n =>
          by_cases hstop : maxNoNew ≤ noNew
          · simpa [phaseALoop, hstop] using h
          · simp only [phaseALoop, if_neg hstop]
            exact ih _ _ _ _ (processArticleList_inv rootId rd.cutoffY rd.articles seen acc h)

/-- Phase B preserves the enumerator invariant. -/
theorem phaseBLoop_inv (rootId : String) (maxNoNew : Nat) :
    ∀ (script : List Round) (b noNew : Nat) (seen : List String) (acc : List Reply),
      EnumInv rootId seen acc →
      EnumInv rootId (phaseBLoop rootId maxNoNew script b noNew seen acc).1
        (phaseBLoop rootId maxNoNew script b noNew seen acc).2 := by
  intro script
  induction script with
  | nil =>
      intro b noNew seen acc h
      simpa [phaseBLoop] using h
  | cons rd rest ih =>
      intro b noNew seen acc h
      cases b with
      | zero => simpa [phaseBLoop] using h
      | succ n =>
          by_cases hstop : maxNoNew ≤ noNew
          · simpa [phaseBLoop, hstop] using h
          · simp only [phaseBLoop, if_neg hstop]
            exact ih _ _ _ _ (processArticleList_inv rootId rd.cutoffY rd.articles seen acc h)

/-- A finished single-post enumerator run satisfies the invariant. -/
theorem scrapeRepliesRun_inv (rootTweet : Tweet) (p : EnumParams)
    (scriptA scriptB : List Round) :
    ((scrapeRepliesRun rootTweet p scriptA scriptB).map (·.id)).Nodup ∧
    (∀ r ∈ scrapeRepliesRun rootTweet p scriptA scriptB,
      r.replyTo = rootTweet.id ∧ ¬(r.id = rootTweet.id)) := by
  have hinit : EnumInv rootTweet.id [rootTweet.id] [] :=
    ⟨List.mem_cons_self _ _, List.nodup_nil, by intro r hr; simp at hr,
     by intro r hr; simp at hr⟩
  have hA := phaseALoop_inv rootTweet.id p.expandFoldedReplies p.maxScrollsWithNoNewLimit
    scriptA p.initialScrollBudget 0 [rootTweet.id] [] hinit
  have hB := phaseBLoop_inv rootTweet.id p.maxBottomNoNew scriptB p.maxBottomRounds 0
    _ _ hA
  obtain ⟨_, hnodup, _, hprop⟩ := hB
  exact ⟨hnodup, hprop⟩

/-- Elements of an insertion come from the inserted element or the list. -/
theorem mem_insertLe (le : CommentRow → CommentRow → Bool) (a : CommentRow) :
    ∀ (l : List CommentRow) (x : CommentRow), x ∈ insertLe le a l → x = a ∨ x ∈ l := by
  intro l
  induction l with
  | nil => intro x hx; simp [insertLe] at hx; exact Or.inl hx
  | cons b t ih =>
      intro x hx
      by_cases hle : le a b = true
      · simp only [insertLe, if_pos hle] at hx
        rcases List.mem_cons.mp hx with h | h
        · exact Or.inl h
        · exact Or.inr h
      · simp only [insertLe, if_neg hle] at hx
        rcases List.mem_cons.mp hx with h | h
        · exact Or.inr (by rw [h]; exact List.mem_cons_self _ _)
        · rcases ih x h with h2 | h2
          · exact Or.inl h2
          · exact Or.inr (List.mem_cons_of_mem _ h2)

/-- The comparison sort does not invent rows. -/
theorem mem_sortLe (le : CommentRow → CommentRow → Bool) :
    ∀ (l : List CommentRow) (x : CommentRow), x ∈ sortLe le l → x ∈ l := by
  intro l
  induction l with
  | nil => intro x hx; simpa [sortLe] using hx
  | cons a t ih =>
      intro x hx
      simp only [sortLe] at hx
      rcases mem_insertLe le a _ x hx with h | h
      · rw [h]; exact List.mem_cons_self _ _
      · exact List.mem_cons_of_mem _ (ih x h)

/-- Each optional filter stage only removes rows. -/
theorem mem_stageTweetId (filter : CommentFilter) (l : List CommentRow)
    (x : CommentRow) (h : x ∈ stageTweetId filter l) : x ∈ l := by
  unfold stageTweetId at h
  split at h
  · exact (List.mem_filter.mp h).1
  · exact h

/-- The author-handle stage only removes rows. -/
theorem mem_stageAuthors (filter : CommentFilter) (l : List CommentRow)
    (x : CommentRow) (h : x ∈ stageAuthors filter l) : x ∈ l := by
  unfold stageAuthors at h
  split at h
  · split at h
    · exact (List.mem_filter.mp h).1
    · exact h
  · exact h

/-- The root-author stage only removes rows. -/
theorem mem_stageRootAuthor (store : List DevRawCommentRow) (filter : CommentFilter)
    (l : List CommentRow) (x : CommentRow) (h : x ∈ stageRootAuthor store filter l) :
    x ∈ l := by
  unfold stageRootAuthor at h
  split at h
  · exact (List.mem_filter.mp h).1
  · exact h

/-- The start-time stage only removes rows. -/
theorem mem_stageStart (filter : CommentFilter) (l : List CommentRow)
    (x : CommentRow) (h : x ∈ stageStart filter l) : x ∈ l := by
  unfold stageStart at h
  split at h
  · exact (List.mem_filter.mp h).1
  · exact h

/-- The end-time stage only removes rows. -/
theorem mem_stageEnd (filter : CommentFilter) (l : List CommentRow)
    (x : CommentRow) (h : x ∈ stageEnd filter l) : x ∈ l := by
  unfold stageEnd at h
  split at h
  · exact (List.mem_filter.mp h).1
  · exact h

/-- The analyzed stage only removes rows. -/
theorem mem_stageAnalyzed (filter : CommentFilter) (l : List CommentRow)
    (x : CommentRow) (h : x ∈ stageAnalyzed filter l) : x ∈ l := by
  unfold stageAnalyzed at h
  split at h
  all_goals first
    | exact h
    | exact (List.mem_filter.mp h).1

/-- The sentiment stage only removes rows. -/
theorem mem_stageSentiments (filter : CommentFilter) (l : List CommentRow)
    (x : CommentRow) (h : x ∈ stageSentiments filter l) : x ∈ l := by
  unfold stageSentiments at h
  split at h
  · split at h
    · exact (List.mem_filter.mp h).1
    · exact h
  · exact h

/-- The minimum-value-score stage only removes rows. -/
theorem mem_stageValueScoreMin (filter : CommentFilter) (l : List CommentRow)
    (x : CommentRow) (h : x ∈ stageValueScoreMin filter l) : x ∈ l := by
  unfold stageValueScoreMin at h
  split at h
  all_goals first
    | exact h
    | exact (List.mem_filter.mp h).1

/-- The maximum-value-score stage only removes rows. -/
theorem mem_stageValueScoreMax (filter : CommentFilter) (l : List CommentRow)
    (x : CommentRow) (h : x ∈ stageValueScoreMax filter l) : x ∈ l := by
  unfold stageValueScoreMax at h
  split at h
  all_goals first
    | exact h
    | exact (List.mem_filter.mp h).1

/-- The value-score stage only removes rows. -/
theorem mem_stageValueScore (filter : CommentFilter) (l : List CommentRow)
    (x : CommentRow) (h : x ∈ stageValueScore filter l) : x ∈ l :=
  mem_stageValueScoreMin filter l x
    (mem_stageValueScoreMax filter _ x h)

/-- The analysis-filter stage only removes rows. -/
theorem mem_stageAnalysisFilters (filter : CommentFilter) (l : List CommentRow)
    (x : CommentRow) (h : x ∈ stageAnalysisFilters filter l) : x ∈ l := by
  unfold stageAnalysisFilters at h
  split at h
  · exact h
  · exact mem_stageSentiments filter l x (mem_stageValueScore filter _ x h)

/-- C3: in every finished run of the single-post reply enumerator the
emitted reply ids are pairwise distinct and none equals the root post's id;
and every row a (development-mode) reply query returns satisfies
`replyId ≠ tweetId`, so the root record is never returned as a reply. -/
theorem reply_ids_distinct_and_root_excluded (rootTweet : Tweet) (p : EnumParams)
    (scriptA scriptB : List Round) (filter : CommentFilter)
    (store : List DevRawCommentRow) (analyzed : String → Option DevAnalyzedRow) :
    ((scrapeRepliesRun rootTweet p scriptA scriptB).map (·.id)).Nodup ∧
    (∀ r ∈ scrapeRepliesRun rootTweet p scriptA scriptB, ¬(r.id = rootTweet.id)) ∧
    (∀ row ∈ getCommentsWithAnalysis filter store analyzed,
      ¬(row.replyId = row.tweetId)) := by
  obtain ⟨hnodup, hprop⟩ := scrapeRepliesRun_inv rootTweet p scriptA scriptB
  refine ⟨hnodup, fun r hr => (hprop r hr).2, ?_⟩
  intro row h
  have hres : getCommentsWithAnalysis filter store analyzed =
      List.take
        (match filter.limit with
          | some n => if n = 0 then 50 else n
          | none => 50)
        (List.drop (filter.offset.getD 0)
          (sortLe (commentLe (filter.sortBy.getD .time_desc))
            (stageAnalysisFilters filter (stageAnalyzed filter (stageEnd filter
              (stageStart filter (stageRootAuthor store filter (stageAuthors filter
                (stageTweetId filter ((store.map (projectCommentRow store analyzed)).filter
                  (fun r => ¬(r.replyId = r.tweetId)))))))))))) := rfl
  rw [hres] at h
  have h1 := List.mem_of_mem_drop (List.mem_of_mem_take h)
  have h2 := mem_sortLe _ _ _ h1
  have h3 := mem_stageAnalysisFilters _ _ _ h2
  have h4 := mem_stageAnalyzed _ _ _ h3
  have h5 := mem_stageEnd _ _ _ h4
  have h6 := mem_stageStart _ _ _ h5
  have h7 := mem_stageRootAuthor _ _ _ _ h6
  have h8 := mem_stageAuthors _ _ _ h7
  have h9 := mem_stageTweetId _ _ _ h8
  have h10 := (List.mem_filter.mp h9).2
  simpa using h10

/-- Concrete instance of C3: a one-round run over a page with one reply card
emits distinct ids none of which is the root id, and the query over a store
holding one reply row returns only rows with `replyId ≠ tweetId`. -/
theorem reply_ids_distinct_and_root_excluded_witness :
    ((scrapeRepliesRun ⟨"100", "hello", "Alice", "alice", "T0", some 0, some 0, some 0⟩
        ⟨false, 10, 120, 6, 30⟩
        [⟨[⟨some "200", some 10, "nice", some ("Bob ", "bob"), "T1", some "3", none,
          none⟩], none, 0⟩] []).map (·.id)).Nodup ∧
    ¬((mkReply "100" "200"
        ⟨some "200", some 10, "nice", some ("Bob ", "bob"), "T1", some "3", none,
          none⟩).id = "100") ∧
    ¬((projectCommentRow [⟨1, "201", "100", "b", "Bob", "bob", "hi", 0, 2, some "100", 5⟩]
        (fun _ => none)
        ⟨1, "201", "100", "b", "Bob", "bob", "hi", 0, 2, some "100", 5⟩).replyId =
      (projectCommentRow [⟨1, "201", "100", "b", "Bob", "bob", "hi", 0, 2, some "100", 5⟩]
        (fun _ => none)
        ⟨1, "201", "100", "b", "Bob", "bob", "hi", 0, 2, some "100", 5⟩).tweetId) := by
  have h := reply_ids_distinct_and_root_excluded
    ⟨"100", "hello", "Alice", "alice", "T0", some 0, some 0, some 0⟩
    ⟨false, 10, 120, 6, 30⟩
    [⟨[⟨some "200", some 10, "nice", some ("Bob ", "bob"), "T1", some "3", none, none⟩],
      none, 0⟩] []
    ⟨none, none, none, none, none, none, none, none, none, none, none, none⟩
    [⟨1, "201", "100", "b", "Bob", "bob", "hi", 0, 2, some "100", 5⟩]
    (fun _ => none)
  refine ⟨h.1, ?_, ?_⟩
  · exact h.2.1 _ (by decide)
  · exact h.2.2 _ (by decide)

/-! ## C2 -/

/-- Single-post harvest: the `onTweet(root)` event opens the trace, every
later event is an `onReply` whose `replyTo` is the root id. -/
theorem scrapeRepliesTrace_root_first (rootTweet : Tweet) (p : EnumParams)
    (sA sB : List Round) :
    ∀ (pre : List Event) (r : Reply) (post : List Event),
      scrapeRepliesTrace rootTweet p sA sB = pre ++ Event.reply r :: post →
      Event.root rootTweet ∈ pre ∧ r.replyTo = rootTweet.id := by
  intro pre r post heq
  unfold scrapeRepliesTrace at heq
  cases pre with
  | nil => simp at heq
  | cons e pre1 =>
      rw [List.cons_append] at heq
      injection heq with h1 h2
      constructor
      · rw [← h1]; exact List.mem_cons_self _ _
      · have hmem : Event.reply r ∈
            (scrapeRepliesRun rootTweet p sA sB).map Event.reply := by
          rw [h2]
          exact List.mem_append_right _ (List.mem_cons_self _ _)
        obtain ⟨q, hq, hqe⟩ := List.mem_map.mp hmem
        have hqr : q = r := by injection hqe
        exact hqr ▸ ((scrapeRepliesRun_inv rootTweet p sA sB).2 q hq).1

/-- Step lemma: account-harvest article walk stops below the cutoff. -/
theorem accountProcessArticles_cons_cutoff (t : Tweet) (cutoffY : Option ℚ)
    (a : Article) (rest : List Article) (acc : List Reply)
    (h : breakAtCutoff a.boxY cutoffY = true) :
    accountProcessArticles t cutoffY (a :: rest) acc = (acc, true) := by
  simp [accountProcessArticles, h]

/-- Step lemma: account-harvest article walk skips id-less cards. -/
theorem accountProcessArticles_cons_noId (t : Tweet) (cutoffY : Option ℚ)
    (a : Article) (rest : List Article) (acc : List Reply)
    (hcut : ¬(breakAtCutoff a.boxY cutoffY = true)) (hid : a.extractedId = none) :
    accountProcessArticles t cutoffY (a :: rest) acc =
      accountProcessArticles t cutoffY rest acc := by
  simp [accountProcessArticles, hcut, hid]

/-- Step lemma: account-harvest article walk skips the root id and
already-collected ids. -/
theorem accountProcessArticles_cons_skip (t : Tweet) (cutoffY : Option ℚ)
    (a : Article) (rest : List Article) (acc : List Reply) (rid : String)
    (hcut : ¬(breakAtCutoff a.boxY cutoffY = true)) (hid : a.extractedId = some rid)
    (hskip : rid = t.id ∨ acc.any (fun r => r.id = rid) = true) :
    accountProcessArticles t cutoffY (a :: rest) acc =
      accountProcessArticles t cutoffY rest acc := by
  simp only [accountProcessArticles, if_neg hcut, hid]
  rw [if_pos hskip]

/-- Step lemma: account-harvest article walk emits a fresh reply. -/
theorem accountProcessArticles_cons_new (t : Tweet) (cutoffY : Option ℚ)
    (a : Article) (rest : List Article) (acc : List Reply) (rid : String)
    (hcut : ¬(breakAtCutoff a.boxY cutoffY = true)) (hid : a.extractedId = some rid)
    (hskip : ¬(rid = t.id ∨ acc.any (fun r => r.id = rid) = true)) :
    accountProcessArticles t cutoffY (a :: rest) acc =
      accountProcessArticles t cutoffY rest (acc ++ [mkReply t.id rid a]) := by
  simp only [accountProcessArticles, if_neg hcut, hid]
  rw [if_neg hskip]

/-- The account-harvest article walk only appends, and every appended reply
points at the current root tweet. -/
theorem accountProcessArticles_extend (t : Tweet) (cutoffY : Option ℚ) :
    ∀ (arts : List Article) (acc : List Reply),
      ∃ new, (accountProcessArticles t cutoffY arts acc).1 = acc ++ new ∧
        ∀ r ∈ new, r.replyTo = t.id := by
  intro arts
  induction arts with
  | nil =>
      intro acc
      exact ⟨[], by simp [accountProcessArticles], by intro r hr; simp at hr⟩
  | cons a rest ih =>
      intro acc
      by_cases hcut : breakAtCutoff a.boxY cutoffY = true
      · refine ⟨[], ?_, by intro r hr; simp at hr⟩
        rw [accountProcessArticles_cons_cutoff _ _ _ _ _ hcut]
        simp
      · cases hid : a.extractedId with
        | none =>
            obtain ⟨new, h1, h2⟩ := ih acc
            refine ⟨new, ?_, h2⟩
            rw [accountProcessArticles_cons_noId _ _ _ _ _ hcut hid]
            exact h1
        | some rid =>
            by_cases hskip : (rid = t.id ∨ acc.any (fun r => r.id = rid) = true)
            · obtain ⟨new, h1, h2⟩ := ih acc
              refine ⟨new, ?_, h2⟩
              rw [accountProcessArticles_cons_skip _ _ _ _ _ rid hcut hid hskip]
              exact h1
            · obtain ⟨new, h1, h2⟩ := ih (acc ++ [mkReply t.id rid a])
              refine ⟨mkReply t.id rid a :: new, ?_, ?_⟩
              · rw [accountProcessArticles_cons_new _ _ _ _ _ rid hcut hid hskip, h1]
                simp
              · intro r hr
                rcases List.mem_cons.mp hr with h | h
                · rw [h]; rfl
                · exact h2 r h

/-- The per-tweet reply loop only appends, and every appended reply points
at the current root tweet. -/
theorem accountTweetLoop_extend (t : Tweet) (expand : Bool) (maxPer base : Nat) :
    ∀ (script : List Round) (b noNew : Nat) (acc : List Reply),
      ∃ new, accountTweetLoop t expand maxPer base script b noNew acc = acc ++ new ∧
        ∀ r ∈ new, r.replyTo = t.id := by
  intro script
  induction script with
  | nil =>
      intro b noNew acc
      refine ⟨[], ?_, by intro r hr; simp at hr⟩
      cases b <;> simp [accountTweetLoop]
  | cons rd rest ih =>
      intro b noNew acc
      cases b with
      | zero =>
          exact ⟨[], by simp [accountTweetLoop], by intro r hr; simp at hr⟩
      | succ n =>
          by_cases hstop : 8 ≤ noNew
          · exact ⟨[], by simp [accountTweetLoop, hstop], by intro r hr; simp at hr⟩
          · obtain ⟨new1, h1, h2⟩ :=
              accountProcessArticles_extend t rd.cutoffY rd.articles acc
            by_cases hend : (accountProcessArticles t rd.cutoffY rd.articles acc).2 = true
            · refine ⟨new1, ?_, h2⟩
              simp only [accountTweetLoop, if_neg hstop]
              rw [if_pos hend]
              exact h1
            · by_cases hmax : 0 < maxPer ∧
                  maxPer ≤ (accountProcessArticles t rd.cutoffY rd.articles acc).1.length - base
              · refine ⟨new1, ?_, h2⟩
                simp only [accountTweetLoop, if_neg hstop]
                rw [if_neg hend, if_pos hmax]
                exact h1
              · obtain ⟨new2, h3, h4⟩ :=
                  ih (if expand ∧ rd.expandClicks ≠ 0 then n + 20 else n)
                    (if (accountProcessArticles t rd.cutoffY rd.articles acc).1.length =
                        acc.length then noNew + 1 else 0)
                    (accountProcessArticles t rd.cutoffY rd.articles acc).1
                refine ⟨new1 ++ new2, ?_, ?_⟩
                · simp only [accountTweetLoop, if_neg hstop]
                  rw [if_neg hend, if_neg hmax, h3, h1, List.append_assoc]
                · intro r hr
                  rcases List.mem_append.mp hr with h | h
                  · exact h2 r h
                  · exact h4 r h

/-- Account harvest: in any decomposition of the callback trace around an
`onReply(r)`, the `onRootPost` event of the tweet `r` replies to has already
occurred in the prefix (tweet ids assumed pairwise distinct, as the
collection loop guarantees). -/
theorem accountHarvestTrace_root_first (expand : Bool) (maxPer : Nat) :
    ∀ (pairs : List (Tweet × List Round)) (acc : List Reply) (root : Tweet),
      (pairs.map (fun pr => pr.1.id)).Nodup →
      root ∈ pairs.map (fun pr => pr.1) →
      ∀ (pre : List Event) (r : Reply) (post : List Event),
        accountHarvestTrace expand maxPer pairs acc = pre ++ Event.reply r :: post →
        r.replyTo = root.id →
        Event.root root ∈ pre := by
  intro pairs
  induction pairs with
  | nil =>
      intro acc root _ hroot
      simp at hroot
  | cons pr rest ih =>
      obtain ⟨t, sc⟩ := pr
      intro acc root hnodup hroot pre r post heq hreply
      obtain ⟨new, hnew1, hnew2⟩ :=
        accountTweetLoop_extend t expand maxPer acc.length sc 500 0 acc
      have htrace : accountHarvestTrace expand maxPer ((t, sc) :: rest) acc =
          Event.root t :: (new.map Event.reply ++
            accountHarvestTrace expand maxPer rest (acc ++ new)) := by
        simp only [accountHarvestTrace]
        rw [hnew1, List.drop_left, List.cons_append]
      rw [htrace] at heq
      rw [List.map_cons] at hroot hnodup
      cases pre with
      | nil => simp at heq
      | cons e pre1 =>
          rw [List.cons_append] at heq
          injection heq with h1 h2
          by_cases hroot_t : root = t
          · rw [← h1, hroot_t]
            exact List.mem_cons_self _ _
          · have hroot_rest : root ∈ rest.map (fun pr => pr.1) := by
              rcases List.mem_cons.mp hroot with h | h
              · exact absurd h hroot_t
              · exact h
            have hnodup_tail : (rest.map (fun pr => pr.1.id)).Nodup :=
              (List.nodup_cons.mp hnodup).2
            have hhead : t.id ∉ rest.map (fun pr => pr.1.id) :=
              (List.nodup_cons.mp hnodup).1
            have hne_id : ¬(t.id = root.id) := by
              intro hcon
              obtain ⟨q, hq, hq2⟩ := List.mem_map.mp hroot_rest
              have : root.id ∈ rest.map (fun pr => pr.1.id) :=
                List.mem_map.mpr ⟨q, hq, by rw [hq2]⟩
              rw [hcon] at hhead
              exact hhead this
            rcases List.append_eq_append_iff.mp h2 with ⟨a2, ha2, hb2⟩ | ⟨c2, hc2, hd2⟩
            · have hmem := ih (acc ++ new) root hnodup_tail hroot_rest a2 r post hb2 hreply
              rw [ha2]
              exact List.mem_cons_of_mem _ (List.mem_append_right _ hmem)
            · cases c2 with
              | nil =>
                  have hd2u : accountHarvestTrace expand maxPer rest (acc ++ new) =
                      Event.reply r :: post := by
                    have := hd2.symm
                    rwa [List.nil_append] at this
                  have htr : accountHarvestTrace expand maxPer rest (acc ++ new) =
                      [] ++ Event.reply r :: post := by
                    rw [hd2u]; rfl
                  have hmem := ih (acc ++ new) root hnodup_tail hroot_rest [] r post htr hreply
                  simp at hmem
              | cons x c3 =>
                  rw [List.cons_append] at hd2
                  injection hd2 with hx hrest2
                  have hxseg : x ∈ new.map Event.reply := by
                    rw [hc2]
                    exact List.mem_append_right _ (List.mem_cons_self _ _)
                  rw [← hx] at hxseg
                  obtain ⟨q, hq, hqe⟩ := List.mem_map.mp hxseg
                  have hqr : q = r := by injection hqe
                  have hqt : r.replyTo = t.id := hqr ▸ hnew2 q hq
                  rw [hreply] at hqt
                  exact absurd hqt.symm hne_id

/-- Step lemma: the profile collection walk stops at the tweet budget. -/
theorem collectRound_cons_full (username : String) (maxTweets : Nat)
    (cutoffY : Option ℚ) (a : Article) (rest : List Article) (tweets : List Tweet)
    (h : maxTweets ≤ tweets.length) :
    collectRound username maxTweets cutoffY (a :: rest) tweets = (tweets, false) := by
  simp [collectRound, h]

/-- The profile collection walk preserves distinctness of collected ids. -/
theorem collectRound_nodup (username : String) (maxTweets : Nat) (cutoffY : Option ℚ) :
    ∀ (arts : List Article) (tweets : List Tweet),
      (tweets.map (·.id)).Nodup →
      ((collectRound username maxTweets cutoffY arts tweets).1.map (·.id)).Nodup := by
  intro arts
  induction arts with
  | nil => intro tweets h; exact h
  | cons a rest ih =>
      intro tweets h
      by_cases hfull : maxTweets ≤ tweets.length
      · rw [collectRound_cons_full _ _ _ _ _ _ hfull]; exact h
      · by_cases hcut : breakAtCutoff a.boxY cutoffY = true
        · have : collectRound username maxTweets cutoffY (a :: rest) tweets =
              (tweets, true) := by
            simp [collectRound, hfull, hcut]
          rw [this]; exact h
        · cases hid : a.extractedId with
          | none =>
              have : collectRound username maxTweets cutoffY (a :: rest) tweets =
                  collectRound username maxTweets cutoffY rest tweets := by
                simp [collectRound, hfull, hcut, hid]
              rw [this]; exact ih tweets h
          | some tid =>
              cases hdup : tweets.any (fun t => t.id = tid) with
              | true =>
                  have : collectRound username maxTweets cutoffY (a :: rest) tweets =
                      collectRound username maxTweets cutoffY rest tweets := by
                    simp only [collectRound, if_neg hfull, if_neg hcut, hid]
                    rw [if_pos hdup]
                  rw [this]; exact ih tweets h
              | false =>
                  have hnotdup : ¬((tweets.any (fun t => t.id = tid)) = true) := by
                    intro hcon
                    rw [hdup] at hcon
                    exact Bool.false_ne_true hcon
                  have hstep : collectRound username maxTweets cutoffY (a :: rest) tweets =
                      collectRound username maxTweets cutoffY rest
                        (tweets ++ [mkCollectedTweet username tid a]) := by
                    simp only [collectRound, if_neg hfull, if_neg hcut, hid]
                    rw [if_neg hnotdup]
                  rw [hstep]
                  apply ih
                  rw [List.map_append, List.nodup_append]
                  refine ⟨h, by simp, ?_⟩
                  intro x hx
                  simp only [List.map_cons, List.map_nil]
                  intro hx2
                  have hx3 : x = tid := by simpa using hx2
                  obtain ⟨q, hq, hq2⟩ := List.mem_map.mp hx
                  have : tweets.any (fun t => t.id = tid) = true := by
                    rw [List.any_eq_true]
                    exact ⟨q, hq, by simp [hq2, hx3]⟩
                  rw [hdup] at this
                  exact Bool.false_ne_true this

/-- The whole collection loop yields pairwise-distinct root-tweet ids. -/
theorem collectTweets_nodup (username : String) (maxTweets : Nat) :
    ∀ (script : List Round) (b : Nat) (tweets : List Tweet),
      (tweets.map (·.id)).Nodup →
      ((collectTweets username maxTweets script b tweets).map (·.id)).Nodup := by
  intro script
  induction script with
  | nil =>
      intro b tweets h
      cases b <;> simpa [collectTweets] using h
  | cons rd rest ih =>
      intro b tweets h
      cases b with
      | zero => simpa [collectTweets] using h
      | succ n =>
          by_cases hfull : maxTweets ≤ tweets.length
          · simpa [collectTweets, hfull] using h
          · simp only [collectTweets, if_neg hfull]
            by_cases hend :
                (collectRound username maxTweets rd.cutoffY rd.articles tweets).2 = true
            · rw [if_pos hend]
              exact collectRound_nodup username maxTweets rd.cutoffY rd.articles tweets h
            · rw [if_neg hend]
              exact ih n _
                (collectRound_nodup username maxTweets rd.cutoffY rd.articles tweets h)

/-- C2: in every harvest run — account harvest and single-post harvest —
`onTweet(root)` is invoked before any `onReply(r)` with `r.replyTo =
root.id`: wherever the callback trace splits around an `onReply` to `root`,
the `onTweet(root)` event already occurs in the prefix, so the root record
is persisted before any of its replies. -/
theorem root_emitted_before_its_replies
    (username : String) (maxTweets : Nat) (expand : Bool) (maxPer : Nat)
    (collectScript : List Round) (replyScripts : List (List Round)) (root : Tweet)
    (hroot : root ∈ collectTweets username maxTweets collectScript
      (maxProfileScrolls maxTweets) [])
    (hlen : (collectTweets username maxTweets collectScript
      (maxProfileScrolls maxTweets) []).length ≤ replyScripts.length)
    (rootTweet : Tweet) (p : EnumParams) (sA sB : List Round) :
    (∀ (pre : List Event) (r : Reply) (post : List Event),
      scrapeUserCommentsTrace username maxTweets expand maxPer collectScript
        replyScripts = pre ++ Event.reply r :: post →
      r.replyTo = root.id → Event.root root ∈ pre) ∧
    (∀ (pre : List Event) (r : Reply) (post : List Event),
      scrapeRepliesTrace rootTweet p sA sB = pre ++ Event.reply r :: post →
      Event.root rootTweet ∈ pre ∧ r.replyTo = rootTweet.id) := by
  constructor
  · intro pre r post heq hreply
    have hzeta : scrapeUserCommentsTrace username maxTweets expand maxPer collectScript
        replyScripts =
        accountHarvestTrace expand maxPer
          ((collectTweets username maxTweets collectScript
            (maxProfileScrolls maxTweets) []).zip replyScripts) [] := rfl
    rw [hzeta] at heq
    have hfst : ((collectTweets username maxTweets collectScript
        (maxProfileScrolls maxTweets) []).zip replyScripts).map (fun pr => pr.1) =
        collectTweets username maxTweets collectScript (maxProfileScrolls maxTweets) [] :=
      List.map_fst_zip _ _ hlen
    have hnodupT := collectTweets_nodup username maxTweets collectScript
      (maxProfileScrolls maxTweets) [] (by simp)
    have hcomp : (((collectTweets username maxTweets collectScript
        (maxProfileScrolls maxTweets) []).zip replyScripts).map (fun pr => pr.1.id)) =
        ((((collectTweets username maxTweets collectScript
          (maxProfileScrolls maxTweets) []).zip replyScripts).map
            (fun pr => pr.1)).map (fun t => t.id)) := by
      rw [List.map_map]
      rfl
    have hnodupP : ((((collectTweets username maxTweets collectScript
        (maxProfileScrolls maxTweets) []).zip replyScripts)).map
          (fun pr => pr.1.id)).Nodup := by
      rw [hcomp, hfst]
      exact hnodupT
    have hrootP : root ∈ ((collectTweets username maxTweets collectScript
        (maxProfileScrolls maxTweets) []).zip replyScripts).map (fun pr => pr.1) := by
      rw [hfst]
      exact hroot
    exact accountHarvestTrace_root_first expand maxPer _ [] root hnodupP hrootP
      pre r post heq hreply
  · exact scrapeRepliesTrace_root_first rootTweet p sA sB

/-- Concrete instance of C2: one collected root with one reply (account
harvest) and one single-post run with one reply; in both traces the root
event precedes the reply to it. -/
theorem root_emitted_before_its_replies_witness :
    Event.root (mkCollectedTweet "demo" "100"
        ⟨some "100", some 5, "hello", some ("Alice ", "alice"), "T0", some "1",
          some "2", some "3"⟩) ∈
      [Event.root (mkCollectedTweet "demo" "100"
        ⟨some "100", some 5, "hello", some ("Alice ", "alice"), "T0", some "1",
          some "2", some "3"⟩)] ∧
    (Event.root (⟨"300", "hi", "Cara", "cara", "T2", some 0, some 0, some 0⟩ : Tweet) ∈
      [Event.root (⟨"300", "hi", "Cara", "cara", "T2", some 0, some 0, some 0⟩ : Tweet)] ∧
     (mkReply "300" "301"
        ⟨some "301", some 10, "yo", some ("Dan ", "dan"), "T3", some "2", none,
          none⟩).replyTo = "300") := by
  have h := root_emitted_before_its_replies "demo" 1 false 0
    [⟨[⟨some "100", some 5, "hello", some ("Alice ", "alice"), "T0", some "1", some "2",
      some "3"⟩], none, 0⟩]
    [[⟨[⟨some "200", some 10, "nice", some ("Bob ", "bob"), "T1", some "3", none,
      none⟩], none, 0⟩]]
    (mkCollectedTweet "demo" "100"
      ⟨some "100", some 5, "hello", some ("Alice ", "alice"), "T0", some "1", some "2",
        some "3"⟩)
    (by decide) (by decide)
    ⟨"300", "hi", "Cara", "cara", "T2", some 0, some 0, some 0⟩
    ⟨false, 10, 120, 6, 30⟩
    [⟨[⟨some "301", some 10, "yo", some ("Dan ", "dan"), "T3", some "2", none, none⟩],
      none, 0⟩] []
  refine ⟨?_, ?_⟩
  · exact h.1
      [Event.root (mkCollectedTweet "demo" "100"
        ⟨some "100", some 5, "hello", some ("Alice ", "alice"), "T0", some "1", some "2",
          some "3"⟩)]
      (mkReply "100" "200"
        ⟨some "200", some 10, "nice", some ("Bob ", "bob"), "T1", some "3", none, none⟩)
      [] (by decide) (by decide)
  · have h2 := h.2
      [Event.root (⟨"300", "hi", "Cara", "cara", "T2", some 0, some 0, some 0⟩ : Tweet)]
      (mkReply "300" "301"
        ⟨some "301", some 10, "yo", some ("Dan ", "dan"), "T3", some "2", none, none⟩)
      [] (by decide)
    exact ⟨h2.1, by simpa using h2.2⟩

end XCM
